import Mathlib

/-!
Verification development for the "False Friend" arcade mechanic
(`src/games/false-friend/FalseFriendGame.tsx` and
`src/games/false-friend/engine/scoring.ts`).

The TypeScript source is shallowly embedded:
* JS numbers that only ever hold small non-negative integers become `ℕ`;
  quantities that can be fractional (hues, notch angles, times) become `ℚ`;
  `Math.pow(r, 1.2)` is modelled over `ℝ` with `Real.rpow`.
* Each call to `Math.random()` (a float in `[0, 1)`) is one value drawn from
  an explicit stream `Rng`; the stream is threaded through the generators in
  exactly the order the source consumes random values.
* The browser timer queue (`setTimeout` / `clearTimeout`) becomes an explicit
  list of pending `Timer`s with increasing numeric ids; timers fire in
  deadline order (ties broken by insertion order, as in the event loop).
  Display-only strings (rule titles/sentences) and CSS concerns are omitted.
-/

namespace FalseFriend

/-! ### Basic types (`FalseFriendGame.tsx`, lines 4-46) -/

inductive ShapeType where
  | circle | square | diamond | triangle | pentagon | hexagon
deriving DecidableEq, Repr

inductive Attribute where
  | shape | color | dots | notch
deriving DecidableEq, Repr

/-- `LevelConfig` from the source.  The literal type constants
`friendCount: 4`, `objectCount: 20`, `objectVisibleMs: 2000` become ordinary
fields that every branch of `getLevelConfig` fills with those literals. -/
structure LevelConfig where
  tier : ℕ
  attributes : List Attribute
  paletteSize : ℕ
  shapeCount : ℕ
  maxDots : ℕ
  notchPositions : ℕ
  spawnDelayMs : ℕ
  friendCount : ℕ
  objectCount : ℕ
  objectVisibleMs : ℕ
deriving DecidableEq, Repr

/-- The friend attribute vector (the `friend` field of `Rule`); also the
shape of the value returned by `makeFalseOrb`. -/
structure Core where
  shape : ShapeType
  hue : ℚ
  dotCount : ℕ
  notchAngle : ℚ
deriving DecidableEq, Repr

/-- `Rule` from the source, minus the display-only strings
(`title`, `sentence`, `example`). -/
structure Rule where
  levelNumber : ℕ
  config : LevelConfig
  friend : Core
deriving DecidableEq, Repr

def RULE_CARD_MS : ℚ := 3000

def FALSE_EXPIRE_POINTS : ℕ := 10

def ROUND_BONUS_BASE : ℕ := 500

def SHAPES : List ShapeType :=
  [.circle, .square, .diamond, .triangle, .pentagon, .hexagon]

/-- `FULL_PALETTE`: `Math.round((360 / 24) * i)` for `i < 24`; `360/24 = 15`
exactly, so the palette is the multiples of 15 below 360. -/
def FULL_PALETTE : List ℚ := (List.range 24).map (fun i => (15 : ℚ) * i)

/-- `clamp` from the source, at `ℕ` (used with natural operands). -/
def clampN (value lo hi : ℕ) : ℕ := min hi (max lo value)

/-- `clamp` from the source, at `ℚ` (used for the orb base size). -/
def clampQ (value lo hi : ℚ) : ℚ := min hi (max lo value)

/-- `getNotchAngle(index, notchPositions)`. -/
def getNotchAngle (index : ℕ) (notchPositions : ℕ) : ℚ :=
  if notchPositions ≤ 0 then 0 else (360 / (notchPositions : ℚ)) * index

/-- `getMinimumHits(levelNumber)`. -/
def getMinimumHits (levelNumber : ℕ) : ℕ :=
  if levelNumber ≤ 2 then 1
  else if levelNumber ≤ 6 then 2
  else 3

/-- The `levelMap` record inside branch B of `getLevelConfig`
(`(shapeCount, paletteSize)` per level; levels other than 3-6 never reach
this lookup). -/
def levelMapB (levelNumber : ℕ) : ℕ × ℕ :=
  match levelNumber with
  | 3 => (2, 2)
  | 4 => (2, 2)
  | 5 => (3, 2)
  | 6 => (2, 3)
  | _ => (2, 2)

/-- The `sequence` array inside branch D of `getLevelConfig`:
`(attributes, maxDots, notchPositions)` for levels 11-14. -/
def sequenceD : List (List Attribute × ℕ × ℕ) :=
  [([.dots], 3, 0), ([.notch], 0, 2), ([.dots], 4, 0), ([.notch], 0, 4)]

/-- The `pairCycle` array inside branch E of `getLevelConfig`. -/
def pairCycle : List (List Attribute) :=
  [[.shape, .dots], [.shape, .notch], [.color, .dots],
   [.color, .notch], [.shape, .color], [.dots, .notch]]

/-- Branch E of `getLevelConfig` (levels 15 and up, lines 161-214).
`Math.floor(x / k)` on naturals is `ℕ` division;
`Math.floor(shapeCount * 0.7)` is `7 * sc / 10` (the float and rational
computations agree on the values 3-6 that reach it);
`Math.max(300, 460 - depth * 12)` agrees with the truncated `ℕ` subtraction
because the `max` absorbs any negative JS value. -/
def configE (levelNumber : ℕ) : LevelConfig :=
  let pair := pairCycle.getD ((levelNumber - 15) % pairCycle.length) []
  let depth := levelNumber - 15
  let shapeCount0 := if .shape ∈ pair then clampN (3 + depth / 3) 3 6 else 1
  let paletteSize0 := if .color ∈ pair then clampN (3 + depth / 2) 3 9 else 1
  let maxDots := if .dots ∈ pair then clampN (3 + depth / 3) 3 8 else 0
  let notchPositions0 := if .notch ∈ pair then clampN (2 + depth / 3 * 2) 2 8 else 0
  let notchPositions :=
    if .notch ∈ pair ∧ notchPositions0 % 2 = 1 then notchPositions0 + 1
    else notchPositions0
  let shapeCount :=
    if .shape ∈ pair ∧ .color ∈ pair then max 2 (7 * shapeCount0 / 10)
    else shapeCount0
  let paletteSize :=
    if .shape ∈ pair ∧ .color ∈ pair then max 2 (7 * paletteSize0 / 10)
    else paletteSize0
  { tier := 2, attributes := pair, shapeCount := shapeCount,
    paletteSize := paletteSize, maxDots := maxDots,
    notchPositions := notchPositions,
    spawnDelayMs := max 300 (460 - depth * 12),
    friendCount := 4, objectCount := 20, objectVisibleMs := 2000 }

/-- `getLevelConfig(levelNumber)` (lines 75-215). -/
def getLevelConfig (levelNumber : ℕ) : LevelConfig :=
  if levelNumber ≤ 2 then
    { tier := 1, attributes := [.shape], shapeCount := 2, paletteSize := 1,
      maxDots := 0, notchPositions := 0, spawnDelayMs := 650,
      friendCount := 4, objectCount := 20, objectVisibleMs := 2000 }
  else if levelNumber ≤ 6 then
    { tier := 2, attributes := [.shape, .color],
      shapeCount := (levelMapB levelNumber).1,
      paletteSize := (levelMapB levelNumber).2,
      maxDots := 0, notchPositions := 0, spawnDelayMs := 620,
      friendCount := 4, objectCount := 20, objectVisibleMs := 2000 }
  else if levelNumber ≤ 10 then
    { tier := 2, attributes := [.shape, .color],
      shapeCount := [3, 4, 5, 5].getD (levelNumber - 7) 0,
      paletteSize := [3, 5, 6, 7].getD (levelNumber - 7) 0,
      maxDots := 0, notchPositions := 0,
      spawnDelayMs := [550, 520, 490, 460].getD (levelNumber - 7) 0,
      friendCount := 4, objectCount := 20, objectVisibleMs := 2000 }
  else if levelNumber ≤ 14 then
    { tier := 1,
      attributes := (sequenceD.getD (levelNumber - 11) ([.dots], 0, 0)).1,
      shapeCount := 1, paletteSize := 1,
      maxDots := (sequenceD.getD (levelNumber - 11) ([.dots], 0, 0)).2.1,
      notchPositions := (sequenceD.getD (levelNumber - 11) ([.dots], 0, 0)).2.2,
      spawnDelayMs := 500,
      friendCount := 4, objectCount := 20, objectVisibleMs := 2000 }
  else configE levelNumber

/-- `pickFrom(items, seed)`, i.e. `items[seed % items.length]`.  All call
sites pass a non-empty list, so the default is never used there. -/
def pickFrom {α : Type} (items : List α) (seed : ℕ) (fallback : α) : α :=
  items.getD (seed % items.length) fallback

/-- `buildRule(levelNumber)` (lines 221-251), minus the display strings. -/
def buildRule (levelNumber : ℕ) : Rule :=
  let config := getLevelConfig levelNumber
  let shapeChoices := SHAPES.take config.shapeCount
  let colorChoices := FULL_PALETTE.take config.paletteSize
  let dotChoices : List ℕ :=
    if config.maxDots > 0 then (List.range config.maxDots).map (· + 1) else [0]
  { levelNumber := levelNumber
    config := config
    friend :=
      { shape := pickFrom shapeChoices (levelNumber * 3) .circle
        hue := pickFrom colorChoices (levelNumber * 5) 0
        dotCount := pickFrom dotChoices (levelNumber * 7) 0
        notchAngle :=
          getNotchAngle (levelNumber % max 1 config.notchPositions)
            config.notchPositions } }

/-! ### Randomness

`Math.random()` returns a float in `[0, 1)`; we model the source of
randomness as a stream of rationals together with a cursor. -/

structure Rng where
  vals : ℕ → ℚ
  idx : ℕ

/-- Draw the next random value. -/
def Rng.next (g : Rng) : ℚ × Rng := (g.vals g.idx, { g with idx := g.idx + 1 })

/-- A random stream is valid when every value lies in `[0, 1)`, like the
results of `Math.random()`. -/
def Rng.Valid (g : Rng) : Prop := ∀ n, 0 ≤ g.vals n ∧ g.vals n < 1

/-- `Math.floor(Math.random() * n)`. -/
def randFloorMul (g : Rng) (n : ℕ) : ℕ × Rng :=
  let (q, g') := g.next
  ((⌊q * (n : ℚ)⌋).toNat, g')

/-- `nearHue(base, paletteSize)` (lines 253-256). -/
def nearHue (base : ℚ) (paletteSize : ℕ) (g : Rng) : ℚ × Rng :=
  let step : ℚ := if paletteSize > 0 then 360 / (paletteSize : ℚ) else 20
  let (q, g') := g.next
  (if q < 1/2 then base - step else base + step, g')

/-- `randomNotchAngle(notchPositions, exclude?)` (lines 258-268).
Note the redraw on collision uses a *fresh* random index plus one, which can
land back on the excluded position. -/
def randomNotchAngle (notchPositions : ℕ) (exclude : Option ℚ) (g : Rng) :
    ℚ × Rng :=
  if notchPositions ≤ 0 then (0, g)
  else
    let (i, g1) := randFloorMul g notchPositions
    let angle := getNotchAngle i notchPositions
    match exclude with
    | some e =>
        if angle = e then
          let (j, g2) := randFloorMul g1 notchPositions
          (getNotchAngle ((j + 1) % notchPositions) notchPositions, g2)
        else (angle, g1)
    | none => (angle, g1)

/-- `matchesRule(orb, rule)` (lines 270-277). -/
def matchesRule (orb : Core) (rule : Rule) : Bool :=
  rule.config.attributes.all fun attr =>
    match attr with
    | .shape => orb.shape == rule.friend.shape
    | .color => orb.hue == rule.friend.hue
    | .dots => orb.dotCount == rule.friend.dotCount
    | .notch => orb.notchAngle == rule.friend.notchAngle

/-- The local `mutate(attr, shouldMatch)` closure inside `makeFalseOrb`
(lines 290-306), lambda-lifted over the values it closes over.  The ternary
operators are lazy, so no random value is drawn on the `shouldMatch` paths. -/
def mutate (rule : Rule) (shapeChoices : List ShapeType) (draft : Core)
    (attr : Attribute) (shouldMatch : Bool) (g : Rng) : Core × Rng :=
  match attr with
  | .shape =>
      ({ draft with shape :=
          (if shouldMatch then rule.friend.shape
           else ((shapeChoices.find? (fun s => s ≠ rule.friend.shape)).getD
             rule.friend.shape)) }, g)
  | .color =>
      if shouldMatch then ({ draft with hue := rule.friend.hue }, g)
      else
        let (h, g') := nearHue rule.friend.hue rule.config.paletteSize g
        ({ draft with hue := h }, g')
  | .dots =>
      if rule.config.maxDots ≤ 0 then ({ draft with dotCount := 0 }, g)
      else if shouldMatch then ({ draft with dotCount := rule.friend.dotCount }, g)
      else
        ({ draft with dotCount :=
            rule.friend.dotCount % rule.config.maxDots + 1 }, g)
  | .notch =>
      if shouldMatch then ({ draft with notchAngle := rule.friend.notchAngle }, g)
      else
        let (a, g') := randomNotchAngle rule.config.notchPositions
          (some rule.friend.notchAngle) g
        ({ draft with notchAngle := a }, g')

/-- `makeFalseOrb(rule)` (lines 279-340), with the random draws threaded in
source order: shape seed, hue seed, dot count (only when `maxDots > 0`),
initial notch angle, then the tier-dependent mutations and, if the draft
still matches the rule, the anti-degeneracy fix-up. -/
def makeFalseOrb (rule : Rule) (g : Rng) : Core × Rng :=
  let shapeChoices := SHAPES.take rule.config.shapeCount
  let colorChoices := FULL_PALETTE.take rule.config.paletteSize
  let (s1, g1) := randFloorMul g 1000
  let (s2, g2) := randFloorMul g1 1000
  let (dots, g3) :=
    if rule.config.maxDots > 0 then
      let (k, g') := randFloorMul g2 rule.config.maxDots
      (k + 1, g')
    else (0, g2)
  let (na, g4) := randomNotchAngle rule.config.notchPositions none g3
  let draft : Core :=
    { shape := pickFrom shapeChoices s1 .circle
      hue := pickFrom colorChoices s2 0
      dotCount := dots
      notchAngle := na }
  let (draft2, g5) :=
    if rule.config.tier = 2 then
      let first := rule.config.attributes.getD 0 .shape
      let second := rule.config.attributes.getD 1 .shape
      let (roll, g') := g4.next
      if roll < 42/100 then
        let (d, ga) := mutate rule shapeChoices draft first true g'
        mutate rule shapeChoices d second false ga
      else if roll < 84/100 then
        let (d, ga) := mutate rule shapeChoices draft first false g'
        mutate rule shapeChoices d second true ga
      else
        let (d, ga) := mutate rule shapeChoices draft first false g'
        mutate rule shapeChoices d second false ga
    else
      mutate rule shapeChoices draft (rule.config.attributes.getD 0 .shape)
        false g4
  if matchesRule draft2 rule then
    if .notch ∈ rule.config.attributes then
      let (a, g6) := randomNotchAngle rule.config.notchPositions
        (some rule.friend.notchAngle) g5
      ({ draft2 with notchAngle := a }, g6)
    else if .dots ∈ rule.config.attributes ∧ rule.config.maxDots > 0 then
      ({ draft2 with dotCount :=
          (rule.friend.dotCount + 1) % rule.config.maxDots + 1 }, g5)
    else if .color ∈ rule.config.attributes then
      let (h, g6) := nearHue rule.friend.hue rule.config.paletteSize g5
      ({ draft2 with hue := h }, g6)
    else
      ({ draft2 with shape :=
          ((shapeChoices.find? (fun s => s ≠ rule.friend.shape)).getD
            draft2.shape) }, g5)
  else (draft2, g5)

/-! ### Round content generation (`buildRound`, lines 342-372) -/

/-- `Orb` from the source.  The string id `` `${level}-${i}-${rand}` `` is
modelled by the slot `index` (unique within a round) plus the raw random
value `idTag` drawn for the suffix; `size`, `x`, `y` keep the random layout
draws in source order. -/
structure Orb where
  index : ℕ
  idTag : ℚ
  isFriend : Bool
  shape : ShapeType
  hue : ℚ
  dotCount : ℕ
  notchAngle : ℚ
  size : ℚ
  x : ℚ
  y : ℚ
  spawnedAt : ℚ
deriving DecidableEq, Repr

/-- The `while (friendSlots.size < friendCount)` loop at the head of
`buildRound`.  The loop has no bound in the source (it terminates with
probability 1); `fuel` bounds the number of iterations in the model and the
loop returns `none` when the bound is hit. -/
def fillFriendSlots (friendCount objectCount : ℕ) (fuel : ℕ)
    (slots : Finset ℕ) (g : Rng) : Option (Finset ℕ × Rng) :=
  if slots.card < friendCount then
    match fuel with
    | 0 => none
    | f + 1 =>
      let (k, g') := randFloorMul g objectCount
      fillFriendSlots friendCount objectCount f (insert k slots) g'
  else some (slots, g)

/-- The body of the `for` loop of `buildRound`, over the list of slot
indices.  Per slot the source draws: the false-friend core (when the slot is
not a friend slot), the id suffix, the size jitter, and the x/y position. -/
def buildOrbs (rule : Rule) (slots : Finset ℕ) (baseSize : ℚ) :
    List ℕ → Rng → List Orb × Rng
  | [], g => ([], g)
  | i :: rest, g =>
    let isFriend := decide (i ∈ slots)
    let (core, g1) := if isFriend then (rule.friend, g) else makeFalseOrb rule g
    let (qid, g2) := g1.next
    let (qs, g3) := g2.next
    let (qx, g4) := g3.next
    let (qy, g5) := g4.next
    let orb : Orb :=
      { index := i, idTag := qid, isFriend := isFriend,
        shape := core.shape, hue := core.hue, dotCount := core.dotCount,
        notchAngle := core.notchAngle,
        size := baseSize + (qs - 1/2) * 8,
        x := qx * 86 + 3, y := qy * 70 + 8, spawnedAt := 0 }
    let (orbs, g6) := buildOrbs rule slots baseSize rest g5
    (orb :: orbs, g6)

/-- `buildRound(levelNumber)` (lines 342-372). -/
def buildRound (levelNumber : ℕ) (fuel : ℕ) (g : Rng) :
    Option (Rule × List Orb × Rng) :=
  let rule := buildRule levelNumber
  match fillFriendSlots rule.config.friendCount rule.config.objectCount fuel
      ∅ g with
  | none => none
  | some (slots, g1) =>
    let baseSize := clampQ (88 - (levelNumber : ℚ) * 12 / 10) 52 90
    let (objects, g2) :=
      buildOrbs rule slots baseSize (List.range rule.config.objectCount) g1
    some (rule, objects, g2)

/-! ### Scoring (`engine/scoring.ts`) -/

def OBJECT_VISIBLE_MS : ℕ := 2000

def ROUND_OBJECT_COUNT : ℕ := 20

def FRIENDS_PER_ROUND : ℕ := 4

def FALSE_EXPIRE_BONUS : ℕ := 10

/-- `scoreFriendClick(reactionMs) = Math.max(0, OBJECT_VISIBLE_MS -
reactionMs)`; the `ℕ` subtraction is the `max` with 0. -/
def scoreFriendClick (reactionMs : ℕ) : ℕ := OBJECT_VISIBLE_MS - reactionMs

/-- `roundClearBonus(roundNumber) = Math.floor(500 * Math.pow(roundNumber,
1.2))` from `engine/scoring.ts`; the same formula appears inline in the
`endTimer` callback of `FalseFriendGame.tsx` as
`Math.floor(ROUND_BONUS_BASE * nextRound ** 1.2)`. -/
noncomputable def roundClearBonus (roundNumber : ℕ) : ℤ :=
  ⌊(500 : ℝ) * (roundNumber : ℝ) ^ (1.2 : ℝ)⌋

/-- The round-clear bonus as the natural number actually added to the
score (the real value is non-negative for every round). -/
noncomputable def roundClearBonusNat (roundNumber : ℕ) : ℕ :=
  (roundClearBonus roundNumber).toNat

/-! ### The timer-driven run state machine (`FalseFriendGame` component)

The browser timer queue is modelled explicitly: every `window.setTimeout`
call allocates a fresh numeric id, records the absolute deadline
(`now + delay`), and appends the timer to `pending`; `window.clearTimeout`
removes a pending timer by id.  Timers fire in deadline order with ties
broken by scheduling order, which is the event-loop firing order the
concurrency model of the game relies on.  The two bookkeeping refs of the
component (`timersRef`, an array of timer ids, and `expiryTimersRef`, a map
from orb id to timer id) are the `timersList` and `expiryMap` fields. -/

inductive Phase where
  | start | countdown | ruleCard | playing | dead
deriving DecidableEq, Repr

/-- The callbacks the component passes to `setTimeout`, with the values the
source closures capture as constructor fields. -/
inductive Callback where
  /-- a countdown tick inside `beginRun` (captures `second`) -/
  | countdownTick (second : ℕ)
  /-- `beginRun`'s final timer: calls `showRuleThenStart(1)` -/
  | runStart
  /-- the `startTimer` of `showRuleThenStart` (captures `nextRound`) -/
  | ruleCardDone (round : ℕ)
  /-- a spawn timer (captures `object` and `rule.config.objectVisibleMs`) -/
  | spawn (orb : Orb) (visibleMs : ℕ)
  /-- an expiry timer (captures `spawnedObject`) -/
  | expiry (orb : Orb)
  /-- the `endTimer` of a round (captures `nextRound`) -/
  | roundEnd (round : ℕ)
deriving DecidableEq, Repr

structure Timer where
  id : ℕ
  time : ℚ
  cb : Callback
deriving DecidableEq, Repr

/-- The component state: the React `useState` hooks, the refs, and the
modelled browser queue (`pending`, `nextId`, `now`).  `rng`/`fuel` drive
`buildRound`; `frozen` records that the unbounded friend-slot sampling loop
failed to terminate within `fuel` iterations (the JS main thread would spin
forever, so no further event is ever processed). -/
structure GState where
  phase : Phase
  countdown : ℕ
  roundNumber : ℕ
  score : ℕ
  activeObjects : List Orb
  currentRule : Rule
  friendsClicked : ℕ
  reactionTotal : ℕ
  roundsCleared : ℕ
  /-- `roundFriendHitsRef` and the mirroring `roundFriendHits` state are
  updated in lockstep in the source; they are one field here. -/
  roundFriendHits : ℕ
  deathScore : ℕ
  timersList : List ℕ
  expiryMap : List (ℕ × ℕ)
  pending : List Timer
  nextId : ℕ
  now : ℚ
  rng : Rng
  fuel : ℕ
  frozen : Bool

/-- `window.setTimeout(cb, delay)`: allocate an id, append the timer. -/
def schedule (s : GState) (delay : ℚ) (cb : Callback) : GState × ℕ :=
  ({ s with
      pending := s.pending ++ [⟨s.nextId, s.now + delay, cb⟩],
      nextId := s.nextId + 1 }, s.nextId)

/-- `setTimeout` whose id is pushed onto `timersRef` (the source does both
in one statement for all timers except expiry timers). -/
def scheduleTracked (s : GState) (delay : ℚ) (cb : Callback) : GState :=
  let (s', tid) := schedule s delay cb
  { s' with timersList := s'.timersList ++ [tid] }

/-- `Map.set` on `expiryTimersRef` (overwrites an existing key). -/
def mapSet (m : List (ℕ × ℕ)) (k v : ℕ) : List (ℕ × ℕ) :=
  if m.any (fun p => p.1 == k) then
    m.map (fun p => if p.1 == k then (k, v) else p)
  else m ++ [(k, v)]

/-- `clearAllTimers` (lines 419-424): `clearTimeout` every id recorded in
the two refs, then empty both refs. -/
def clearAllTimers (s : GState) : GState :=
  { s with
    pending := s.pending.filter (fun tm =>
      !(s.timersList.contains tm.id
        || (s.expiryMap.map Prod.snd).contains tm.id)),
    timersList := [], expiryMap := [] }

/-- `triggerDeath` (lines 428-433). -/
def triggerDeath (s : GState) : GState :=
  let s1 := clearAllTimers s
  { s1 with activeObjects := [], phase := .dead, deathScore := s1.score }

/-- The synchronous part of `showRuleThenStart(nextRound)` (lines 435-440
and 485-487): set the round state, show the rule card, and schedule the
card-dismissal timer. -/
def showRuleThenStart (nextRound : ℕ) (s : GState) : GState :=
  let s1 := { s with
    roundNumber := nextRound, currentRule := buildRule nextRound,
    phase := .ruleCard }
  scheduleTracked s1 RULE_CARD_MS (.ruleCardDone nextRound)

/-- The body of the `startTimer` callback inside `showRuleThenStart`
(lines 441-485): clear the arena, build the round, enter `playing`, reset
the per-round hit counter, schedule one spawn timer per object at
`index * spawnDelayMs` and the `endTimer` at
`(objects.length - 1) * spawnDelayMs + objectVisibleMs + 30`. -/
def ruleCardDoneFire (nextRound : ℕ) (s : GState) : GState :=
  let s0 := { s with activeObjects := [] }
  match buildRound nextRound s.fuel s.rng with
  | none => { s0 with frozen := true }
  | some (rule, objects, g') =>
    let s1 := { s0 with
      currentRule := rule, phase := .playing,
      roundFriendHits := 0, rng := g' }
    let s2 := objects.enum.foldl
      (fun st p => scheduleTracked st
        ((p.1 : ℚ) * (rule.config.spawnDelayMs : ℚ))
        (.spawn p.2 rule.config.objectVisibleMs)) s1
    scheduleTracked s2
      (((objects.length - 1 : ℕ) : ℚ) * (rule.config.spawnDelayMs : ℚ)
        + (rule.config.objectVisibleMs : ℚ) + 30)
      (.roundEnd nextRound)

/-- The body of a spawn-timer callback (lines 450-463): stamp the spawn
time, add the object to the arena, schedule its expiry timer and record it
in `expiryTimersRef`. -/
def spawnFire (orb : Orb) (visibleMs : ℕ) (s : GState) : GState :=
  let spawned := { orb with spawnedAt := s.now }
  let s1 := { s with activeObjects := s.activeObjects ++ [spawned] }
  let (s2, tid) := schedule s1 (visibleMs : ℚ) (.expiry spawned)
  { s2 with expiryMap := mapSet s2.expiryMap spawned.index tid }

/-- The body of an expiry-timer callback (lines 455-460): remove the orb,
award `FALSE_EXPIRE_POINTS` when it was not a friend, drop the map entry. -/
def expiryFire (orb : Orb) (s : GState) : GState :=
  let s1 := { s with activeObjects :=
    s.activeObjects.filter (fun o => o.index ≠ orb.index) }
  let s2 := if orb.isFriend then s1
    else { s1 with score := s1.score + FALSE_EXPIRE_POINTS }
  { s2 with expiryMap := s2.expiryMap.eraseP (fun p => p.1 == orb.index) }

/-- The body of the `endTimer` callback (lines 469-482): die when the
per-round hit counter is below `getMinimumHits`, otherwise add the round
bonus, record the cleared round, and show the next rule card. -/
noncomputable def roundEndFire (nextRound : ℕ) (s : GState) : GState :=
  if s.roundFriendHits < getMinimumHits nextRound then triggerDeath s
  else
    showRuleThenStart (nextRound + 1)
      { s with
        score := s.score + roundClearBonusNat nextRound,
        roundsCleared := nextRound }

/-- Dispatch a fired callback. -/
noncomputable def execCb : Callback → GState → GState
  | .countdownTick k, s => { s with countdown := k }
  | .runStart, s => showRuleThenStart 1 s
  | .ruleCardDone r, s => ruleCardDoneFire r s
  | .spawn orb vis, s => spawnFire orb vis s
  | .expiry orb, s => expiryFire orb s
  | .roundEnd r, s => roundEndFire r s

/-- The timer the event loop fires next: the first pending timer whose
deadline is minimal (deadline order, ties broken by scheduling order). -/
def selectNext (pending : List Timer) : Option Timer :=
  pending.find? (fun tm => pending.all (fun u => decide (tm.time ≤ u.time)))

/-- Fire the next due timer: remove it from the queue, advance the clock to
its deadline, run its callback.  No-op when nothing is pending (or the main
thread is stuck in the sampling loop). -/
noncomputable def fireNext (s : GState) : GState :=
  if s.frozen then s
  else
    match selectNext s.pending with
    | none => s
    | some tm =>
      execCb tm.cb
        { s with
          pending := s.pending.filter (fun u => u.id ≠ tm.id),
          now := tm.time }

/-- `handleObjectClick(orb)` (lines 492-518), for a click at absolute time
`t` on the rendered orb with slot index `idx`.  Clicks on orbs no longer in
the arena cannot happen (only rendered orbs have buttons), and any click
outside the `playing` phase is ignored by the guard. -/
def clickOn (idx : ℕ) (t : ℚ) (s : GState) : GState :=
  if s.frozen then s
  else if s.phase ≠ .playing then s
  else
    match s.activeObjects.find? (fun o => o.index == idx) with
    | none => s
    | some orb =>
      let s1 :=
        match s.expiryMap.find? (fun p => p.1 == idx) with
        | some p =>
          { s with
            pending := s.pending.filter (fun u => u.id ≠ p.2),
            expiryMap := s.expiryMap.eraseP (fun q => q.1 == idx) }
        | none => s
      let s2 := { s1 with activeObjects :=
        s1.activeObjects.filter (fun o => o.index ≠ idx) }
      if orb.isFriend then
        let reactionMs : ℕ := (⌊t - orb.spawnedAt⌋).toNat
        let clickPoints : ℕ := 2000 - reactionMs
        { s2 with
          score := s2.score + clickPoints,
          friendsClicked := s2.friendsClicked + 1,
          reactionTotal := s2.reactionTotal + reactionMs,
          roundFriendHits := s2.roundFriendHits + 1 }
      else triggerDeath s2

/-- `beginRun` (lines 520-546), requested at absolute time `t`: cancel
every recorded timer, reset the run state, start the countdown, and
schedule the three countdown ticks and the run-start timer. -/
def startRun (t : ℚ) (s : GState) : GState :=
  if s.frozen then s
  else
    let s1 := clearAllTimers { s with now := t }
    let s2 := { s1 with
      score := 0, roundNumber := 1, roundsCleared := 0,
      friendsClicked := 0, reactionTotal := 0, currentRule := buildRule 1,
      roundFriendHits := 0, deathScore := 0, countdown := 3,
      phase := .countdown }
    let s3 := [3, 2, 1].foldl
      (fun st sec => scheduleTracked st (((3 - sec : ℕ) : ℚ) * 1000)
        (.countdownTick sec)) s2
    scheduleTracked s3 3000 .runStart

/-- External events: a timer firing, a pointer click on an orb, or a
start-run request (the Start / Play Again buttons). -/
inductive Ev where
  | fire
  | click (idx : ℕ) (t : ℚ)
  | start (t : ℚ)

noncomputable def step : Ev → GState → GState
  | .fire, s => fireNext s
  | .click idx t, s => clickOn idx t s
  | .start t, s => startRun t s

noncomputable def applyEvents (evs : List Ev) (s : GState) : GState :=
  evs.foldl (fun st e => step e st) s

/-- The initial component state (the `useState` initial values). -/
def initState (g : Rng) (fuel : ℕ) : GState :=
  { phase := .start, countdown := 3, roundNumber := 1, score := 0,
    activeObjects := [], currentRule := buildRule 1, friendsClicked := 0,
    reactionTotal := 0, roundsCleared := 0, roundFriendHits := 0,
    deathScore := 0, timersList := [], expiryMap := [], pending := [],
    nextId := 0, now := 0, rng := g, fuel := fuel, frozen := false }

/-! ### Invariants of the reachable states

`SysInv` is the timer-bookkeeping discipline: every pending timer is
recorded in one of the two refs (so `clearAllTimers` really cancels
everything), ids are allocated below `nextId`, and pending ids are distinct.
`PhaseInv` describes the timer queue per phase. -/

def SysInv (s : GState) : Prop :=
  (∀ tm ∈ s.pending,
    tm.id ∈ s.timersList ∨ tm.id ∈ s.expiryMap.map Prod.snd) ∧
  (∀ tm ∈ s.pending, tm.id < s.nextId) ∧
  (s.pending.map Timer.id).Nodup

/-- Is this callback part of a running round? -/
def roundCb : Callback → Bool
  | .spawn _ _ => true
  | .expiry _ => true
  | .roundEnd _ => true
  | _ => false

/-- Is this callback a round-end timer? -/
def isEndCb : Callback → Bool
  | .roundEnd _ => true
  | _ => false

/-- Is this callback a countdown tick? -/
def isTickCb : Callback → Bool
  | .countdownTick _ => true
  | _ => false

/-- The slot index of a pending spawn timer, if any. -/
def spawnIndex : Callback → Option ℕ
  | .spawn orb _ => some orb.index
  | _ => none

/-- Slot indices of all pending spawn timers. -/
def spawnIdxs (pending : List Timer) : List ℕ :=
  pending.filterMap (fun tm => spawnIndex tm.cb)

/-- A pending spawn timer leaves room before the round-end deadline for the
expiry timer it will schedule. -/
def spawnOk (tm endTm : Timer) : Bool :=
  match tm.cb with
  | .spawn _ vis => decide (tm.time + (vis : ℚ) < endTm.time)
  | _ => true

/-- A pending expiry timer is due before the round-end deadline and is
recorded in `expiryTimersRef` under its orb's slot index. -/
def expiryOk (tm endTm : Timer) (m : List (ℕ × ℕ)) : Bool :=
  match tm.cb with
  | .expiry orb =>
    decide (tm.time < endTm.time) && decide ((orb.index, tm.id) ∈ m)
  | _ => true

/-- An `expiryTimersRef` entry points at a pending expiry timer for the
recorded slot index. -/
def mapEntryOk (p : ℕ × ℕ) (pending : List Timer) : Bool :=
  pending.any fun tm =>
    match tm.cb with
    | .expiry orb => decide (orb.index = p.1) && decide (tm.id = p.2)
    | _ => false

/-- Queue invariant while a round is in progress: only round callbacks are
pending; there is exactly one `endTimer`, for the current round, and it is
scheduled after every spawn timer's expiry and after every pending expiry;
every pending expiry is recorded in `expiryTimersRef` and vice versa; every
on-screen orb has a map entry; slot indices are not duplicated between
pending spawns, on-screen orbs and map keys. -/
def PlayingInv (s : GState) : Prop :=
  (∀ tm ∈ s.pending, roundCb tm.cb = true) ∧
  ∃ endTm ∈ s.pending, endTm.cb = .roundEnd s.roundNumber ∧
    (∀ tm ∈ s.pending, isEndCb tm.cb = true → tm = endTm) ∧
    (∀ tm ∈ s.pending, spawnOk tm endTm = true) ∧
    (∀ tm ∈ s.pending, expiryOk tm endTm s.expiryMap = true) ∧
    (∀ p ∈ s.expiryMap, mapEntryOk p s.pending = true) ∧
    (∀ orb ∈ s.activeObjects, orb.index ∈ s.expiryMap.map Prod.fst) ∧
    (s.expiryMap.map Prod.fst).Nodup ∧
    (spawnIdxs s.pending ++ s.activeObjects.map Orb.index).Nodup ∧
    (∀ k ∈ spawnIdxs s.pending, k ∉ s.expiryMap.map Prod.fst)

/-- Queue invariant during the countdown: a unique run-start timer, all
other timers are countdown ticks due before it; no expiry bookkeeping. -/
def CountdownInv (s : GState) : Prop :=
  (∃ rs ∈ s.pending, rs.cb = .runStart ∧
    (∀ tm ∈ s.pending, tm.cb = .runStart → tm = rs) ∧
    (∀ tm ∈ s.pending, tm ≠ rs → isTickCb tm.cb = true ∧ tm.time < rs.time)) ∧
  s.expiryMap = []

/-- Queue invariant while the rule card is shown: exactly the dismissal
timer for the current round is pending. -/
def RuleCardInv (s : GState) : Prop :=
  s.pending.length = 1 ∧
  (∀ tm ∈ s.pending, tm.cb = .ruleCardDone s.roundNumber) ∧
  s.expiryMap = []

/-- Queue invariant on the start screen and after death: everything
cancelled and both refs empty. -/
def IdleInv (s : GState) : Prop :=
  s.pending = [] ∧ s.expiryMap = [] ∧ s.timersList = []

def PhaseInv (s : GState) : Prop :=
  (s.phase = .start → IdleInv s) ∧
  (s.phase = .countdown → CountdownInv s) ∧
  (s.phase = .ruleCard → RuleCardInv s) ∧
  (s.phase = .playing → PlayingInv s) ∧
  (s.phase = .dead → IdleInv s)

def GlobalInv (s : GState) : Prop :=
  SysInv s ∧ (s.frozen = true ∨ PhaseInv s)

/-- All pending timer ids, and all ids that will ever be allocated, are at
least `n` (used to show stale timers never come back after a reset). -/
def IdsAbove (n : ℕ) (s : GState) : Prop :=
  (∀ tm ∈ s.pending, n ≤ tm.id) ∧ n ≤ s.nextId

instance decSysInv (s : GState) : Decidable (SysInv s) := by
  unfold SysInv
  infer_instance

instance decPlayingInv (s : GState) : Decidable (PlayingInv s) := by
  unfold PlayingInv
  infer_instance

instance decCountdownInv (s : GState) : Decidable (CountdownInv s) := by
  unfold CountdownInv
  infer_instance

instance decRuleCardInv (s : GState) : Decidable (RuleCardInv s) := by
  unfold RuleCardInv
  infer_instance

instance decIdleInv (s : GState) : Decidable (IdleInv s) := by
  unfold IdleInv
  infer_instance

instance decPhaseInv (s : GState) : Decidable (PhaseInv s) := by
  unfold PhaseInv
  infer_instance

instance decGlobalInv (s : GState) : Decidable (GlobalInv s) := by
  unfold GlobalInv
  infer_instance

/-! ### Concrete states and streams used to instantiate the theorems -/

/-- The all-zero random stream. -/
def gZero : Rng := ⟨fun _ => 0, 0⟩

/-- A valid random stream producing 20 distinct friend slots. -/
def gSlots : Rng := ⟨fun n => (n % 20 : ℕ) / 20, 0⟩

/-- Random stream driving `makeFalseOrb` at level 12 into returning a
vector that satisfies the rule: draws 4 and 6 make both collision redraws
of `randomNotchAngle` land back on the friend's notch position. -/
def gC1 : Rng := ⟨fun n => if n = 4 ∨ n = 6 then 1/2 else 0, 0⟩

/-- Random stream whose second draw sends the collision redraw of
`randomNotchAngle` back to the excluded position. -/
def gC3 : Rng := ⟨fun n => if n = 1 then 1/2 else 0, 0⟩

/-- The level-12 configuration (notch-only, two notch positions). -/
def cfg12 : LevelConfig :=
  { tier := 1, attributes := [.notch], shapeCount := 1, paletteSize := 1,
    maxDots := 0, notchPositions := 2, spawnDelayMs := 500,
    friendCount := 4, objectCount := 20, objectVisibleMs := 2000 }

/-- The level-12 rule: the friend has its notch at angle 0. -/
def rule12 : Rule :=
  { levelNumber := 12, config := cfg12,
    friend := { shape := .circle, hue := 0, dotCount := 0, notchAngle := 0 } }

/-- An arbitrary non-matching draft used to call `mutate` directly. -/
def draft12 : Core := { shape := .circle, hue := 0, dotCount := 0, notchAngle := 180 }

/-- A state with one stale pending timer from an old run. -/
def staleTimer : Timer := ⟨0, 0, .countdownTick 3⟩

def stateC2 : GState :=
  { initState gZero 5 with pending := [staleTimer], timersList := [0], nextId := 1 }

/-- A mid-`playing` state in which only the round-end timer remains and no
friend has been hit. -/
def endTimer4 : Timer := ⟨5, 100, .roundEnd 1⟩

def stateC4 : GState :=
  { initState gZero 5 with
    phase := .playing, pending := [endTimer4], timersList := [5], nextId := 6 }

/-- A mid-`playing` state in which only the round-end timer remains and the
minimum-hit requirement is met. -/
def endTimer5 : Timer := ⟨5, 100, .roundEnd 1⟩

def stateC5 : GState :=
  { initState gZero 5 with
    phase := .playing, pending := [endTimer5], timersList := [5], nextId := 6,
    roundFriendHits := 1 }

/-- A state whose next due timer is the expiry of a false-friend orb. -/
def orbC8 : Orb :=
  { index := 0, idTag := 0, isFriend := false, shape := .circle, hue := 0,
    dotCount := 0, notchAngle := 0, size := 60, x := 10, y := 10, spawnedAt := 0 }

def expTimer8 : Timer := ⟨7, 50, .expiry orbC8⟩

def stateC8 : GState :=
  { initState gZero 5 with
    phase := .playing, pending := [expTimer8], expiryMap := [(0, 7)], nextId := 8 }

/-- The timers produced by a fold of `scheduleTracked` calls over a list
(used to describe the spawn timers scheduled by `ruleCardDoneFire`):
sequential ids from `nid`, deadlines `now + d x`, callbacks `c x`. -/
def foldTimers {α : Type} (d : α → ℚ) (c : α → Callback) (now : ℚ) :
    ℕ → List α → List Timer
  | _, [] => []
  | nid, x :: rest => ⟨nid, now + d x, c x⟩ :: foldTimers d c now (nid + 1) rest

/-! ### Basic evaluation lemmas -/

lemma FULL_PALETTE_take_one : FULL_PALETTE.take 1 = [0] := by
  rw [FULL_PALETTE, List.range_succ_eq_map]
  norm_num

lemma getLevelConfig_12 : getLevelConfig 12 = cfg12 := by
  norm_num [getLevelConfig, sequenceD, cfg12]

lemma buildRule_12 : buildRule 12 = rule12 := by
  rw [buildRule, getLevelConfig_12]
  norm_num [cfg12, pickFrom, SHAPES, FULL_PALETTE_take_one, getNotchAngle, rule12]

lemma gC1_valid : Rng.Valid gC1 := by
  intro n
  simp only [gC1]
  split <;> norm_num

lemma gC3_valid : Rng.Valid gC3 := by
  intro n
  simp only [gC3]
  split <;> norm_num

/-- C1: the anti-degeneracy invariant fails.  At level 12 (rule: notch at
angle 0, two notch positions) the random outcome `gC1` drives every
collision redraw of `randomNotchAngle` back onto the friend's notch angle,
so `makeFalseOrb` returns a vector that satisfies the rule even after the
final re-check.  The claim that `matchesRule` applied to the result of
`makeFalseOrb(rule)` is always `false` is therefore violated by the code. -/
theorem makeFalseOrb_violates_rule_at_level12 :
    buildRule 12 = rule12 ∧
    matchesRule (makeFalseOrb (buildRule 12) gC1).1 (buildRule 12) = true ∧
    Rng.Valid gC1 := by
  refine ⟨buildRule_12, ?_, gC1_valid⟩
  rw [buildRule_12]
  norm_num [makeFalseOrb, rule12, cfg12, mutate, randomNotchAngle, randFloorMul,
    Rng.next, gC1, pickFrom, SHAPES, FULL_PALETTE_take_one, getNotchAngle,
    matchesRule]

/-- C3: the non-matching-value generator can return the matching value.
With two notch positions and the friend's angle 0 excluded, the stream
`gC3` makes the first draw collide and the redraw land on position
`(1 + 1) % 2 = 0` — the excluded one — so both `randomNotchAngle` and
`mutate(notch, shouldMatch := false)` return the friend's notch angle.
The claimed hard invariant is violated by the code. -/
theorem randomNotchAngle_returns_excluded_value :
    Attribute.notch ∈ rule12.config.attributes ∧
    (randomNotchAngle rule12.config.notchPositions
      (some rule12.friend.notchAngle) gC3).1 = rule12.friend.notchAngle ∧
    (mutate rule12 (SHAPES.take rule12.config.shapeCount) draft12
      .notch false gC3).1.notchAngle = rule12.friend.notchAngle ∧
    Rng.Valid gC3 := by
  refine ⟨by norm_num [rule12, cfg12], ?_, ?_, gC3_valid⟩
  · norm_num [rule12, cfg12, randomNotchAngle, randFloorMul, Rng.next, gC3,
      getNotchAngle]
  · norm_num [mutate, rule12, cfg12, randomNotchAngle, randFloorMul, Rng.next,
      gC3, getNotchAngle]

/-- C7: for every level at least 1, the rule catalog produces a non-empty
active-attribute list, and every active attribute has a value pool of size
at least 2, so a non-matching value always exists. -/
theorem getLevelConfig_wellFormed (n : ℕ) (hn : 1 ≤ n) :
    (getLevelConfig n).attributes ≠ [] ∧
    (.shape ∈ (getLevelConfig n).attributes → 2 ≤ (getLevelConfig n).shapeCount) ∧
    (.color ∈ (getLevelConfig n).attributes → 2 ≤ (getLevelConfig n).paletteSize) ∧
    (.dots ∈ (getLevelConfig n).attributes → 2 ≤ (getLevelConfig n).maxDots) ∧
    (.notch ∈ (getLevelConfig n).attributes → 2 ≤ (getLevelConfig n).notchPositions) := by
  rcases le_or_lt n 14 with h | h
  · interval_cases n <;> decide
  · have h1 : ¬ n ≤ 2 := by omega
    have h2 : ¬ n ≤ 6 := by omega
    have h3 : ¬ n ≤ 10 := by omega
    have h4 : ¬ n ≤ 14 := by omega
    simp only [getLevelConfig, if_neg h1, if_neg h2, if_neg h3, if_neg h4]
    have hmem : pairCycle.getD ((n - 15) % pairCycle.length) [] ∈ pairCycle := by
      have hlt : (n - 15) % pairCycle.length < pairCycle.length :=
        Nat.mod_lt _ (by norm_num [pairCycle])
      rw [List.getD_eq_getElem?_getD, List.getElem?_eq_getElem hlt]
      exact List.getElem_mem hlt
    obtain ⟨pair, hpair⟩ :
        ∃ p, pairCycle.getD ((n - 15) % pairCycle.length) [] = p := ⟨_, rfl⟩
    rw [hpair] at hmem
    simp only [configE, hpair]
    simp only [pairCycle, List.mem_cons, List.not_mem_nil, or_false] at hmem
    rcases hmem with rfl | rfl | rfl | rfl | rfl | rfl <;>
      simp [clampN] <;> (try split_ifs) <;> omega

/-- Witness for C7 at level 15 (the unbounded branch of the catalog). -/
theorem getLevelConfig_wellFormed_witness :
    1 ≤ 15 ∧
    ((getLevelConfig 15).attributes ≠ [] ∧
    (.shape ∈ (getLevelConfig 15).attributes → 2 ≤ (getLevelConfig 15).shapeCount) ∧
    (.color ∈ (getLevelConfig 15).attributes → 2 ≤ (getLevelConfig 15).paletteSize) ∧
    (.dots ∈ (getLevelConfig 15).attributes → 2 ≤ (getLevelConfig 15).maxDots) ∧
    (.notch ∈ (getLevelConfig 15).attributes → 2 ≤ (getLevelConfig 15).notchPositions)) :=
  ⟨by norm_num, getLevelConfig_wellFormed 15 (by norm_num)⟩

/-! ### The round-clear bonus (`engine/scoring.ts`) -/

lemma rpow_succ_ge (r : ℕ) :
    ((r : ℝ)) ^ (1.2 : ℝ) + 1 ≤ ((r : ℝ) + 1) ^ (1.2 : ℝ) := by
  have h := NNReal.add_rpow_le_rpow_add (r : NNReal) 1 (by norm_num : (1:ℝ) ≤ 1.2)
  have h2 := NNReal.coe_le_coe.2 h
  push_cast [NNReal.coe_rpow] at h2
  simpa using h2

lemma roundClearBonus_lt_succ (r : ℕ) :
    roundClearBonus r < roundClearBonus (r + 1) := by
  have key : (500 : ℝ) * ((r : ℝ) ^ (1.2 : ℝ)) + 500 ≤
      (500 : ℝ) * (((r : ℕ) + 1 : ℕ) : ℝ) ^ (1.2 : ℝ) := by
    push_cast
    nlinarith [rpow_succ_ge r]
  have h1 : roundClearBonus r + 500 ≤ roundClearBonus (r + 1) := by
    have h3 := Int.floor_le_floor key
    rw [show ((500 : ℝ) * ((r : ℝ) ^ (1.2 : ℝ)) + 500) =
        ((500 : ℝ) * ((r : ℝ) ^ (1.2 : ℝ)) + (500 : ℤ)) by push_cast; ring] at h3
    rw [Int.floor_add_int] at h3
    simpa [roundClearBonus] using h3
  omega

lemma roundClearBonus_ge (r : ℕ) (hr : 1 ≤ r) : 500 ≤ roundClearBonus r := by
  have h1 : (1 : ℝ) ≤ (r : ℝ) ^ (1.2 : ℝ) :=
    Real.one_le_rpow (by exact_mod_cast hr) (by norm_num)
  have h2 : (500 : ℝ) ≤ (500 : ℝ) * (r : ℝ) ^ (1.2 : ℝ) := by nlinarith
  have h3 := Int.floor_le_floor h2
  simpa [roundClearBonus] using h3

lemma roundClearBonusNat_pos (r : ℕ) (hr : 1 ≤ r) : 0 < roundClearBonusNat r := by
  have := roundClearBonus_ge r hr
  unfold roundClearBonusNat
  omega

/-- C9: `roundClearBonus` is the floor of `500 * r ^ 1.2` and is strictly
increasing in the round number. -/
theorem roundClearBonus_formula_strictMono (r : ℕ) (hr : 1 ≤ r) :
    roundClearBonus r = ⌊(500 : ℝ) * (r : ℝ) ^ (1.2 : ℝ)⌋ ∧
    roundClearBonus r < roundClearBonus (r + 1) :=
  ⟨rfl, roundClearBonus_lt_succ r⟩

/-- Witness for C9 at round 1. -/
theorem roundClearBonus_formula_strictMono_witness :
    1 ≤ 1 ∧ roundClearBonus 1 < roundClearBonus 2 :=
  ⟨by norm_num, (roundClearBonus_formula_strictMono 1 (by norm_num)).2⟩

/-! ### Projection lemmas for the machine's state transformers -/

lemma schedule_proj (s : GState) (d : ℚ) (cb : Callback) :
    (schedule s d cb).1 =
      { s with
        pending := s.pending ++ [⟨s.nextId, s.now + d, cb⟩],
        nextId := s.nextId + 1 } ∧
    (schedule s d cb).2 = s.nextId := ⟨rfl, rfl⟩

lemma scheduleTracked_eq (s : GState) (d : ℚ) (cb : Callback) :
    scheduleTracked s d cb =
      { s with
        pending := s.pending ++ [⟨s.nextId, s.now + d, cb⟩],
        nextId := s.nextId + 1,
        timersList := s.timersList ++ [s.nextId] } := rfl

lemma scheduleTracked_score (s : GState) (d : ℚ) (cb : Callback) :
    (scheduleTracked s d cb).score = s.score := rfl

lemma scheduleTracked_phase (s : GState) (d : ℚ) (cb : Callback) :
    (scheduleTracked s d cb).phase = s.phase := rfl

/-- Fields of the state untouched by `scheduleTracked`. -/
lemma scheduleTracked_same (s : GState) (d : ℚ) (cb : Callback) :
    (scheduleTracked s d cb).score = s.score ∧
    (scheduleTracked s d cb).phase = s.phase ∧
    (scheduleTracked s d cb).roundNumber = s.roundNumber ∧
    (scheduleTracked s d cb).activeObjects = s.activeObjects ∧
    (scheduleTracked s d cb).expiryMap = s.expiryMap ∧
    (scheduleTracked s d cb).roundFriendHits = s.roundFriendHits ∧
    (scheduleTracked s d cb).now = s.now ∧
    (scheduleTracked s d cb).frozen = s.frozen ∧
    (scheduleTracked s d cb).roundsCleared = s.roundsCleared :=
  ⟨rfl, rfl, rfl, rfl, rfl, rfl, rfl, rfl, rfl⟩

/-- Folding `scheduleTracked` over a list appends the timers described by
`foldTimers` and leaves every other field unchanged. -/
lemma foldSched_eq {α : Type} (d : α → ℚ) (c : α → Callback) (l : List α)
    (s : GState) :
    l.foldl (fun st x => scheduleTracked st (d x) (c x)) s =
      { s with
        pending := s.pending ++ foldTimers d c s.now s.nextId l,
        nextId := s.nextId + l.length,
        timersList :=
          s.timersList ++ (foldTimers d c s.now s.nextId l).map Timer.id } := by
  induction l generalizing s with
  | nil => simp [foldTimers]
  | cons x rest ih =>
    simp only [List.foldl_cons, foldTimers]
    rw [ih]
    cases s
    simp [scheduleTracked_eq, List.append_assoc]
    omega

lemma showRuleThenStart_eq (r : ℕ) (s : GState) :
    showRuleThenStart r s =
      { s with
        roundNumber := r, currentRule := buildRule r, phase := .ruleCard,
        pending := s.pending ++ [⟨s.nextId, s.now + RULE_CARD_MS, .ruleCardDone r⟩],
        nextId := s.nextId + 1,
        timersList := s.timersList ++ [s.nextId] } := rfl

/-- `ruleCardDoneFire` in closed form: on success it resets the arena and
hit counter, enters `playing`, and appends the spawn timers (deadlines
`index * spawnDelayMs` from now) followed by the round-end timer. -/
lemma ruleCardDoneFire_eq (r : ℕ) (s : GState) :
    ruleCardDoneFire r s =
      match buildRound r s.fuel s.rng with
      | none => { s with activeObjects := [], frozen := true }
      | some (rule, objects, g') =>
        let spawnTs := foldTimers
          (fun p : ℕ × Orb => (p.1 : ℚ) * (rule.config.spawnDelayMs : ℚ))
          (fun p => .spawn p.2 rule.config.objectVisibleMs) s.now s.nextId
          objects.enum
        { s with
          activeObjects := [], currentRule := rule, phase := .playing,
          roundFriendHits := 0, rng := g',
          pending := (s.pending ++ spawnTs) ++
            [⟨s.nextId + objects.length,
              s.now + (((objects.length - 1 : ℕ) : ℚ) *
                (rule.config.spawnDelayMs : ℚ) +
                (rule.config.objectVisibleMs : ℚ) + 30),
              .roundEnd r⟩],
          nextId := s.nextId + objects.length + 1,
          timersList := (s.timersList ++ spawnTs.map Timer.id) ++
            [s.nextId + objects.length] } := by
  unfold ruleCardDoneFire
  cases hb : buildRound r s.fuel s.rng with
  | none => rfl
  | some out =>
    obtain ⟨rule, objects, g'⟩ := out
    dsimp only
    rw [foldSched_eq]
    simp [scheduleTracked_eq, List.append_assoc, List.enum_length]

/-- `startRun` in closed form (for an unfrozen state): cancel everything
recorded, reset the run, and schedule the countdown ticks and the run-start
timer. -/
lemma startRun_eq (t : ℚ) (s : GState) (hfr : s.frozen = false) :
    startRun t s =
      { s with
        now := t, score := 0, roundNumber := 1, roundsCleared := 0,
        friendsClicked := 0, reactionTotal := 0, currentRule := buildRule 1,
        roundFriendHits := 0, deathScore := 0, countdown := 3,
        phase := .countdown,
        expiryMap := [],
        pending := (clearAllTimers s).pending ++
          [⟨s.nextId, t + ((3 - 3 : ℕ) : ℚ) * 1000, .countdownTick 3⟩,
           ⟨s.nextId + 1, t + ((3 - 2 : ℕ) : ℚ) * 1000, .countdownTick 2⟩,
           ⟨s.nextId + 2, t + ((3 - 1 : ℕ) : ℚ) * 1000, .countdownTick 1⟩,
           ⟨s.nextId + 3, t + 3000, .runStart⟩],
        nextId := s.nextId + 4,
        timersList := [s.nextId, s.nextId + 1, s.nextId + 2, s.nextId + 3] } := by
  unfold startRun
  rw [if_neg (by simp [hfr])]
  have hfold := foldSched_eq
    (fun sec : ℕ => ((3 - sec : ℕ) : ℚ) * 1000)
    (fun sec => Callback.countdownTick sec) [3, 2, 1]
    { clearAllTimers { s with now := t } with
      score := 0, roundNumber := 1, roundsCleared := 0,
      friendsClicked := 0, reactionTotal := 0, currentRule := buildRule 1,
      roundFriendHits := 0, deathScore := 0, countdown := 3,
      phase := .countdown }
  simp only [hfold, scheduleTracked_eq, foldTimers, clearAllTimers]
  cases s
  simp [List.append_assoc]

/-! ### Per-event scoring effects -/

/-- Firing the next due timer, in terms of the fired callback. -/
lemma fireNext_eq (s : GState) (tm : Timer) (hfr : s.frozen = false)
    (hsel : selectNext s.pending = some tm) :
    fireNext s = execCb tm.cb
      { s with
        pending := s.pending.filter (fun u => u.id ≠ tm.id),
        now := tm.time } := by
  simp only [fireNext, hfr, Bool.false_eq_true, if_false, hsel]

/-- C8: when the next due timer is the expiry of an unclicked token, firing
it adds exactly `FALSE_EXPIRE_POINTS = 10` to the score if the token is a
false friend, and changes neither the score nor the round's correct-hit
counter if the token is a friend. -/
theorem expiry_scoring (s : GState) (tm : Timer) (orb : Orb)
    (hfr : s.frozen = false) (hsel : selectNext s.pending = some tm)
    (hcb : tm.cb = .expiry orb) :
    FALSE_EXPIRE_POINTS = 10 ∧
    ((step .fire s).score =
      if orb.isFriend then s.score else s.score + FALSE_EXPIRE_POINTS) ∧
    (step .fire s).roundFriendHits = s.roundFriendHits ∧
    (orb.isFriend = true → (step .fire s).score = s.score) := by
  have hstep : step .fire s = expiryFire orb
      { s with
        pending := s.pending.filter (fun u => u.id ≠ tm.id),
        now := tm.time } := by
    rw [show step Ev.fire s = fireNext s from rfl,
      fireNext_eq s tm hfr hsel, hcb]
    rfl
  rw [hstep]
  cases horb : orb.isFriend <;>
    simp [expiryFire, horb, FALSE_EXPIRE_POINTS]

/-- Witness for C8: a concrete state whose due timer is the expiry of a
false-friend orb. -/
theorem expiry_scoring_witness :
    stateC8.frozen = false ∧ selectNext stateC8.pending = some expTimer8 ∧
    expTimer8.cb = .expiry orbC8 ∧
    (FALSE_EXPIRE_POINTS = 10 ∧
    ((step .fire stateC8).score =
      if orbC8.isFriend then stateC8.score
      else stateC8.score + FALSE_EXPIRE_POINTS) ∧
    (step .fire stateC8).roundFriendHits = stateC8.roundFriendHits ∧
    (orbC8.isFriend = true → (step .fire stateC8).score = stateC8.score)) :=
  ⟨rfl, by decide, rfl, expiry_scoring stateC8 expTimer8 orbC8 rfl (by decide) rfl⟩

/-- C10: the score never decreases within a run — every timer event and
every click adds a non-negative amount — and is set back to 0 only by a
start-run request; the round-clear bonus itself is strictly positive. -/
theorem score_monotone (s : GState) (e : Ev) :
    (e = .fire → s.score ≤ (step e s).score) ∧
    (∀ idx t, e = .click idx t → s.score ≤ (step e s).score) ∧
    (∀ t, e = .start t → s.frozen = false → (step e s).score = 0) ∧
    (∀ r, 1 ≤ r → 0 < roundClearBonusNat r) := by
  refine ⟨?_, ?_, ?_, fun r hr => roundClearBonusNat_pos r hr⟩
  · rintro rfl
    show s.score ≤ (fireNext s).score
    cases hfrb : s.frozen with
    | true => simp [fireNext, hfrb]
    | false =>
      cases hsel : selectNext s.pending with
      | none => simp [fireNext, hfrb, hsel]
      | some tm =>
        rw [fireNext_eq s tm hfrb hsel]
        cases hcb : tm.cb with
        | countdownTick k => simp [execCb]
        | runStart => simp [execCb, showRuleThenStart_eq]
        | ruleCardDone r =>
          simp only [execCb, ruleCardDoneFire_eq]
          split <;> simp
        | spawn orb vis => simp [execCb, spawnFire, schedule]
        | expiry orb =>
          simp only [execCb, expiryFire]
          split <;> simp
        | roundEnd r =>
          simp only [execCb, roundEndFire]
          split
          · simp [triggerDeath, clearAllTimers]
          · simp [showRuleThenStart_eq]
  · rintro idx t rfl
    show s.score ≤ (clickOn idx t s).score
    unfold clickOn
    split
    · exact le_refl _
    split
    · exact le_refl _
    split
    · exact le_refl _
    rename_i orb _
    dsimp only
    cases horb : orb.isFriend
    · simp only [horb, Bool.false_eq_true, if_false]
      split <;> simp [triggerDeath, clearAllTimers]
    · simp only [horb, if_true]
      split <;> simp
  · rintro t rfl hfr
    show (startRun t s).score = 0
    rw [startRun_eq t s hfr]

/-- Witness for C10: the reset clause and the bonus positivity at concrete
inputs. -/
theorem score_monotone_witness :
    ((step (.start 0) (initState gZero 5)).score = 0) ∧
    0 < roundClearBonusNat 1 :=
  ⟨(score_monotone (initState gZero 5) (.start 0)).2.2.1 0 rfl rfl,
   (score_monotone (initState gZero 5) .fire).2.2.2 1 (by norm_num)⟩

/-! ### Cancellation discipline (claim C2) -/

lemma foldTimers_id_bounds {α : Type} (d : α → ℚ) (c : α → Callback)
    (now : ℚ) (nid : ℕ) (l : List α) :
    ∀ tm ∈ foldTimers d c now nid l, nid ≤ tm.id ∧ tm.id < nid + l.length := by
  induction l generalizing nid with
  | nil => intro tm h; simp [foldTimers] at h
  | cons x rest ih =>
    intro tm h
    simp only [foldTimers, List.mem_cons] at h
    rcases h with rfl | h
    · simp
    · have := ih (nid + 1) tm h
      constructor <;> [omega; (simp only [List.length_cons]; omega)]

lemma clearAllTimers_pending_nil (s : GState)
    (h : ∀ tm ∈ s.pending,
      tm.id ∈ s.timersList ∨ tm.id ∈ s.expiryMap.map Prod.snd) :
    (clearAllTimers s).pending = [] := by
  simp only [clearAllTimers]
  rw [List.filter_eq_nil_iff]
  intro tm hmem
  rcases h tm hmem with h1 | h1 <;> simp [h1]

/-- Every step only allocates timer ids at or above the current `nextId`,
so a lower bound on live ids is preserved forever. -/
lemma idsAbove_execCb (N : ℕ) (cb : Callback) (s : GState)
    (h : IdsAbove N s) : IdsAbove N (execCb cb s) := by
  obtain ⟨hp, hn⟩ := h
  cases cb with
  | countdownTick k => exact ⟨hp, hn⟩
  | runStart =>
    rw [execCb, showRuleThenStart_eq]
    refine ⟨?_, by simpa using by omega⟩
    intro tm hmem
    rcases List.mem_append.1 hmem with hm | hm
    · exact hp tm hm
    · simp only [List.mem_singleton] at hm
      subst hm
      exact hn
  | ruleCardDone r =>
    rw [execCb, ruleCardDoneFire_eq]
    cases hb : buildRound r s.fuel s.rng with
    | none => exact ⟨hp, hn⟩
    | some out =>
      obtain ⟨rule, objects, g'⟩ := out
      dsimp only
      constructor
      · intro tm hmem
        rcases List.mem_append.1 hmem with hm | hm
        · rcases List.mem_append.1 hm with hm2 | hm2
          · exact hp tm hm2
          · exact le_trans hn (foldTimers_id_bounds _ _ _ _ _ tm hm2).1
        · simp only [List.mem_singleton] at hm
          subst hm
          simp only
          omega
      · simp only
        omega
  | spawn orb vis =>
    simp only [execCb, spawnFire, schedule]
    constructor
    · intro tm hmem
      rcases List.mem_append.1 hmem with hm | hm
      · exact hp tm hm
      · simp only [List.mem_singleton] at hm
        subst hm
        exact hn
    · simp only
      omega
  | expiry orb =>
    simp only [execCb, expiryFire]
    constructor
    · intro tm hmem
      apply hp
      split at hmem <;> simpa using hmem
    · split <;> exact hn
  | roundEnd r =>
    rw [execCb, roundEndFire]
    split
    · refine ⟨?_, hn⟩
      intro tm hmem
      simp only [triggerDeath, clearAllTimers, List.mem_filter] at hmem
      exact hp tm hmem.1
    · rw [showRuleThenStart_eq]
      refine ⟨?_, by simpa using by omega⟩
      intro tm hmem
      rcases List.mem_append.1 hmem with hm | hm
      · exact hp tm hm
      · simp only [List.mem_singleton] at hm
        subst hm
        exact hn

lemma idsAbove_step (N : ℕ) (s : GState) (e : Ev)
    (h : IdsAbove N s) : IdsAbove N (step e s) := by
  obtain ⟨hp, hn⟩ := h
  cases e with
  | fire =>
    show IdsAbove N (fireNext s)
    rw [fireNext]
    split
    · exact ⟨hp, hn⟩
    · cases hsel : selectNext s.pending with
      | none => exact ⟨hp, hn⟩
      | some tm =>
        apply idsAbove_execCb
        refine ⟨?_, hn⟩
        intro u hu
        exact hp u (List.mem_of_mem_filter hu)
  | click idx t =>
    show IdsAbove N (clickOn idx t s)
    rw [clickOn]
    split
    · exact ⟨hp, hn⟩
    split
    · exact ⟨hp, hn⟩
    split
    · exact ⟨hp, hn⟩
    rename_i orb _
    dsimp only
    have hstep1 : IdsAbove N
        (match s.expiryMap.find? (fun p => p.1 == idx) with
        | some p =>
          { s with
            pending := s.pending.filter (fun u => u.id ≠ p.2),
            expiryMap := s.expiryMap.eraseP (fun q => q.1 == idx) }
        | none => s) := by
      split
      · refine ⟨?_, hn⟩
        intro u hu
        exact hp u (List.mem_of_mem_filter hu)
      · exact ⟨hp, hn⟩
    obtain ⟨hp1, hn1⟩ := hstep1
    split
    · exact ⟨fun u hu => hp1 u hu, hn1⟩
    · refine ⟨?_, hn1⟩
      intro u hu
      simp only [triggerDeath, clearAllTimers, List.mem_filter] at hu
      exact hp1 u hu.1
  | start t =>
    show IdsAbove N (startRun t s)
    cases hfr : s.frozen with
    | true =>
      have : startRun t s = s := by simp [startRun, hfr]
      rw [this]
      exact ⟨hp, hn⟩
    | false =>
      rw [startRun_eq t s hfr]
      constructor
      · intro tm hmem
        simp only [List.mem_append] at hmem
        rcases hmem with hm | hm
        · simp only [clearAllTimers, List.mem_filter] at hm
          exact hp tm hm.1
        · simp only [List.mem_cons, List.not_mem_nil, or_false] at hm
          rcases hm with rfl | rfl | rfl | rfl <;> simp <;> omega
      · simp only
        omega

lemma idsAbove_applyEvents (N : ℕ) (s : GState) (evs : List Ev)
    (h : IdsAbove N s) : IdsAbove N (applyEvents evs s) := by
  induction evs generalizing s with
  | nil => exact h
  | cons e rest ih =>
    exact ih (step e s) (idsAbove_step N s e h)

/-- C2: a start-run request while timers of the old run are still pending
cancels them all (`clearAllTimers` reaches every recorded id), resets the
run, and no event sequence afterwards can ever fire one of the old
callbacks: the old timer ids never reappear in the queue, and only pending
timers can fire.  Hence no stale callback can alter the new run's score,
round number or phase. -/
theorem startRun_neutralizes_stale_timers (s : GState) (t : ℚ)
    (evs : List Ev) (hsys : SysInv s) (hfr : s.frozen = false) :
    (step (.start t) s).score = 0 ∧
    (step (.start t) s).roundNumber = 1 ∧
    (step (.start t) s).phase = .countdown ∧
    ∀ tm ∈ s.pending,
      tm.id ∉ (applyEvents evs (step (.start t) s)).pending.map Timer.id := by
  obtain ⟨href, hlt, hnodup⟩ := hsys
  have hstart : step (.start t) s = startRun t s := rfl
  have hclear : (clearAllTimers s).pending = [] :=
    clearAllTimers_pending_nil s href
  have habove : IdsAbove s.nextId (startRun t s) := by
    rw [startRun_eq t s hfr]
    constructor
    · intro tm hmem
      simp only [List.mem_append, hclear, List.not_mem_nil, false_or] at hmem
      simp only [List.mem_cons, List.not_mem_nil, or_false] at hmem
      rcases hmem with rfl | rfl | rfl | rfl <;> simp
    · simp only
      omega
  refine ⟨?_, ?_, ?_, ?_⟩
  · rw [hstart, startRun_eq t s hfr]
  · rw [hstart, startRun_eq t s hfr]
  · rw [hstart, startRun_eq t s hfr]
  · intro tm hmem
    have hlt2 : tm.id < s.nextId := hlt tm hmem
    have hafter := idsAbove_applyEvents s.nextId _ evs (hstart ▸ habove)
    intro hin
    obtain ⟨u, hu, hid⟩ := List.mem_map.1 hin
    have := hafter.1 u hu
    omega

/-- Witness for C2: a state with one stale pending timer; after a start-run
request and a subsequent timer fire, the stale id is gone for good. -/
theorem startRun_neutralizes_stale_timers_witness :
    (step (.start 0) stateC2).score = 0 ∧
    (step (.start 0) stateC2).roundNumber = 1 ∧
    (step (.start 0) stateC2).phase = .countdown ∧
    ∀ tm ∈ stateC2.pending,
      tm.id ∉ (applyEvents [.fire] (step (.start 0) stateC2)).pending.map
        Timer.id :=
  startRun_neutralizes_stale_timers stateC2 0 [.fire] (by decide) rfl

/-! ### Round-end analysis (claims C4, C5) -/

lemma selectNext_min (pending : List Timer) (tm : Timer)
    (h : selectNext pending = some tm) :
    tm ∈ pending ∧ ∀ u ∈ pending, tm.time ≤ u.time := by
  refine ⟨List.mem_of_find?_eq_some h, ?_⟩
  have hpred := List.find?_some h
  simp only [List.all_eq_true, decide_eq_true_eq] at hpred
  exact hpred

lemma pending_singleton {l : List Timer} (hnd : (l.map Timer.id).Nodup)
    {tm : Timer} (hmem : tm ∈ l) (hall : ∀ u ∈ l, u = tm) : l = [tm] := by
  cases l with
  | nil => exact absurd hmem (List.not_mem_nil tm)
  | cons a l2 =>
    have ha : a = tm := hall a (List.mem_cons_self a l2)
    have h2 : l2 = [] := by
      cases l2 with
      | nil => rfl
      | cons b l3 =>
        exfalso
        have hb : b = tm := hall b (by simp)
        have hids : Timer.id a ∉ List.map Timer.id (b :: l3) := by
          simp only [List.map_cons, List.nodup_cons] at hnd
          exact hnd.1
        apply hids
        simp [ha, hb]
    rw [ha, h2]

/-- When the round-end timer is the next due timer of a `playing` state
satisfying the invariant, the round's queue is exhausted: it is the only
pending timer (every spawn and expiry timer was due strictly earlier), no
orb is still on screen, the expiry map is empty, and the timer belongs to
the current round. -/
lemma roundEnd_selected_exhausted (s : GState) (tm : Timer) (r : ℕ)
    (hG : GlobalInv s) (hfr : s.frozen = false) (hp : s.phase = .playing)
    (hsel : selectNext s.pending = some tm) (hcb : tm.cb = .roundEnd r) :
    s.pending = [tm] ∧ s.activeObjects = [] ∧ s.expiryMap = [] ∧
    r = s.roundNumber := by
  obtain ⟨⟨href, hlt, hnodup⟩, hrest⟩ := hG
  rcases hrest with hfz | hphase
  · rw [hfr] at hfz
    cases hfz
  have hplay := hphase.2.2.2.1 hp
  obtain ⟨hround, endTm, hendmem, hendcb, huniq, hspawn, hexp, hmapok, hact,
    hknodup, hsnodup, hdisj⟩ := hplay
  obtain ⟨htmmem, hmin⟩ := selectNext_min s.pending tm hsel
  have htm_end : tm = endTm := huniq tm htmmem (by rw [hcb]; rfl)
  have hall : ∀ u ∈ s.pending, u = tm := by
    intro u hu
    have hrcb := hround u hu
    cases hucb : u.cb with
    | spawn orb vis =>
      exfalso
      have hso := hspawn u hu
      simp only [spawnOk, hucb, ← htm_end, decide_eq_true_eq] at hso
      have hmu := hmin u hu
      have hv : (0 : ℚ) ≤ (vis : ℚ) := by positivity
      linarith
    | expiry orb =>
      exfalso
      have heo := hexp u hu
      simp only [expiryOk, hucb, ← htm_end, Bool.and_eq_true,
        decide_eq_true_eq] at heo
      have hmu := hmin u hu
      linarith [heo.1]
    | roundEnd r2 =>
      rw [← htm_end] at huniq
      exact huniq u hu (by rw [hucb]; rfl)
    | countdownTick k => simp [roundCb, hucb] at hrcb
    | runStart => simp [roundCb, hucb] at hrcb
    | ruleCardDone r2 => simp [roundCb, hucb] at hrcb
  have hpend : s.pending = [tm] := pending_singleton hnodup htmmem hall
  have hmapnil : s.expiryMap = [] := by
    rw [List.eq_nil_iff_forall_not_mem]
    intro p hpmem
    have hok := hmapok p hpmem
    rw [hpend] at hok
    simp only [mapEntryOk, List.any_eq_true] at hok
    obtain ⟨u, hu, hpredu⟩ := hok
    simp only [List.mem_singleton] at hu
    subst hu
    rw [hcb] at hpredu
    exact Bool.noConfusion hpredu
  have hactnil : s.activeObjects = [] := by
    rw [List.eq_nil_iff_forall_not_mem]
    intro orb ho
    have hk := hact orb ho
    rw [hmapnil] at hk
    simp at hk
  refine ⟨hpend, hactnil, hmapnil, ?_⟩
  rw [← htm_end] at hendcb
  rw [hcb] at hendcb
  injection hendcb

lemma fireNext_frozen_or_none (s : GState)
    (h : s.frozen = true ∨ selectNext s.pending = none) : fireNext s = s := by
  rcases h with h | h
  · simp [fireNext, h]
  · rw [fireNext]
    split
    · rfl
    · rw [h]

/-- Cancelling the one timer recorded for `idx` keeps every other pending
timer covered by the two refs. -/
lemma cancel_keeps_refs (pending : List Timer) (timersList : List ℕ)
    (m : List (ℕ × ℕ)) (idx : ℕ) (p : ℕ × ℕ)
    (href : ∀ tm ∈ pending, tm.id ∈ timersList ∨ tm.id ∈ m.map Prod.snd)
    (hknodup : (m.map Prod.fst).Nodup)
    (hfind : m.find? (fun q => q.1 == idx) = some p) :
    ∀ u ∈ pending.filter (fun u => u.id ≠ p.2),
      u.id ∈ timersList ∨
      u.id ∈ (m.eraseP (fun q => q.1 == idx)).map Prod.snd := by
  intro u hu
  rw [List.mem_filter] at hu
  obtain ⟨humem, hune⟩ := hu
  simp only [decide_eq_true_eq] at hune
  rcases href u humem with h1 | h1
  · exact Or.inl h1
  · right
    rw [List.mem_map] at h1
    obtain ⟨q, hq, hq2⟩ := h1
    rw [List.mem_map]
    refine ⟨q, ?_, hq2⟩
    rw [List.mem_eraseP_of_neg]
    · exact hq
    · intro hqidx
      simp only [beq_iff_eq] at hqidx
      have hpmem : p ∈ m := List.mem_of_find?_eq_some hfind
      have hpidx : p.1 = idx := by
        have := List.find?_some hfind
        simpa using this
      have hqp : q = p :=
        List.inj_on_of_nodup_map hknodup hq hpmem (by rw [hqidx, hpidx])
      rw [hqp] at hq2
      exact hune (by rw [← hq2])

/-- Clicking a false-friend orb in `playing`: the machine dies at once,
with the arena cleared, every recorded timer cancelled (all of them, by the
bookkeeping invariant), the refs emptied, and the score untouched. -/
lemma clickOn_false_spec (s : GState) (idx : ℕ) (t : ℚ) (orb : Orb)
    (hG : GlobalInv s) (hfr : s.frozen = false) (hp : s.phase = .playing)
    (hfind : s.activeObjects.find? (fun o => o.index == idx) = some orb)
    (hfriend : orb.isFriend = false) :
    (clickOn idx t s).phase = .dead ∧
    (clickOn idx t s).activeObjects = [] ∧
    (clickOn idx t s).timersList = [] ∧
    (clickOn idx t s).expiryMap = [] ∧
    (clickOn idx t s).pending = [] ∧
    (clickOn idx t s).score = s.score ∧
    (clickOn idx t s).frozen = false := by
  obtain ⟨⟨href, hlt, hnodup⟩, hrest⟩ := hG
  rcases hrest with hfz | hphase
  · rw [hfr] at hfz
    cases hfz
  have hplay := hphase.2.2.2.1 hp
  obtain ⟨hround, endTm, hendmem, hendcb, huniq, hspawn, hexp, hmapok, hact,
    hknodup, hsnodup, hdisj⟩ := hplay
  have hstep : clickOn idx t s = triggerDeath
      { (match s.expiryMap.find? (fun q : ℕ × ℕ => q.1 == idx) with
         | some p =>
           { s with
             pending := s.pending.filter (fun u => u.id ≠ p.2),
             expiryMap := s.expiryMap.eraseP (fun q : ℕ × ℕ => q.1 == idx) }
         | none => s) with
        activeObjects :=
          (match s.expiryMap.find? (fun q : ℕ × ℕ => q.1 == idx) with
           | some p =>
             { s with
               pending := s.pending.filter (fun u => u.id ≠ p.2),
               expiryMap := s.expiryMap.eraseP (fun q : ℕ × ℕ => q.1 == idx) }
           | none => s).activeObjects.filter (fun o => o.index ≠ idx) } := by
    rw [clickOn]
    rw [if_neg (by simp [hfr])]
    rw [if_neg (by simp [hp])]
    rw [hfind]
    dsimp only
    rw [hfriend]
    rfl
  rw [hstep]
  cases hm : s.expiryMap.find? (fun q => q.1 == idx) with
  | none =>
    simp only [hm]
    refine ⟨rfl, rfl, rfl, rfl, ?_, rfl, hfr⟩
    show List.filter _ s.pending = []
    rw [List.filter_eq_nil_iff]
    intro u humem
    rcases href u humem with h1 | h1 <;> simp [h1]
  | some p =>
    simp only [hm]
    refine ⟨rfl, rfl, rfl, rfl, ?_, rfl, hfr⟩
    show List.filter _ (s.pending.filter (fun u => u.id ≠ p.2)) = []
    rw [List.filter_eq_nil_iff]
    intro u humem
    rcases cancel_keeps_refs s.pending s.timersList s.expiryMap idx p href
      hknodup hm u humem with h1 | h1 <;> simp [h1]

lemma spawnFire_phase (orb : Orb) (vis : ℕ) (s : GState) :
    (spawnFire orb vis s).phase = s.phase := rfl

lemma expiryFire_phase (orb : Orb) (s : GState) :
    (expiryFire orb s).phase = s.phase := by
  rw [expiryFire]
  split <;> rfl

lemma clickOn_friend_phase (s : GState) (idx : ℕ) (t : ℚ) (orb : Orb)
    (hfr : s.frozen = false) (hp : s.phase = .playing)
    (hfind : s.activeObjects.find? (fun o => o.index == idx) = some orb)
    (hfriend : orb.isFriend = true) :
    (clickOn idx t s).phase = s.phase := by
  rw [clickOn, if_neg (by simp [hfr]), if_neg (by simp [hp]), hfind]
  dsimp only
  rw [hfriend]
  cases hm : s.expiryMap.find? (fun q : ℕ × ℕ => q.1 == idx) <;> simp [hm]

/-- C4: in the `playing` phase the machine reaches `dead` in exactly two
cases: a click on a present non-friend token — which immediately clears the
arena, cancels every scheduled timer, and lets no further event change the
state — or the round-end timer firing with the correct-hit count below
`getMinimumHits` (at which point the queue is already exhausted: the
round-end timer was the only pending timer and no orb was on screen). -/
theorem playing_to_dead_iff (s : GState) (e : Ev) (hG : GlobalInv s)
    (hfr : s.frozen = false) (hp : s.phase = .playing) :
    ((step e s).phase = .dead ↔
      (∃ idx t orb, e = .click idx t ∧
        s.activeObjects.find? (fun o => o.index == idx) = some orb ∧
        orb.isFriend = false) ∨
      (∃ tm r, e = .fire ∧ selectNext s.pending = some tm ∧
        tm.cb = .roundEnd r ∧ s.roundFriendHits < getMinimumHits r)) ∧
    (∀ idx t orb, e = .click idx t →
      s.activeObjects.find? (fun o => o.index == idx) = some orb →
      orb.isFriend = false →
      (step e s).activeObjects = [] ∧ (step e s).pending = [] ∧
      (step e s).timersList = [] ∧ (step e s).expiryMap = [] ∧
      (∀ idx2 t2, step (.click idx2 t2) (step e s) = step e s) ∧
      step .fire (step e s) = step e s) ∧
    (∀ tm r, e = .fire → selectNext s.pending = some tm →
      tm.cb = .roundEnd r →
      s.pending = [tm] ∧ s.activeObjects = [] ∧ r = s.roundNumber) := by
  have hGp : PlayingInv s := by
    rcases hG.2 with hfz | hphase
    · rw [hfr] at hfz
      cases hfz
    · exact hphase.2.2.2.1 hp
  refine ⟨⟨?_, ?_⟩, ?_, ?_⟩
  · -- forward direction of the characterisation
    intro hdead
    cases e with
    | fire =>
      cases hsel : selectNext s.pending with
      | none =>
        exfalso
        have hid : step Ev.fire s = s := fireNext_frozen_or_none s (Or.inr hsel)
        rw [hid, hp] at hdead
        cases hdead
      | some tm =>
        have hstep := fireNext_eq s tm hfr hsel
        have htmmem := (selectNext_min s.pending tm hsel).1
        obtain ⟨hround, _⟩ := hGp
        cases hcb : tm.cb with
        | countdownTick k =>
          exfalso
          have hrc := hround tm htmmem
          simp [roundCb, hcb] at hrc
        | runStart =>
          exfalso
          have hrc := hround tm htmmem
          simp [roundCb, hcb] at hrc
        | ruleCardDone r =>
          exfalso
          have hrc := hround tm htmmem
          simp [roundCb, hcb] at hrc
        | spawn orb vis =>
          exfalso
          rw [show step Ev.fire s = fireNext s from rfl, hstep, hcb] at hdead
          rw [execCb, spawnFire_phase] at hdead
          rw [show ({ s with
            pending := s.pending.filter (fun u => u.id ≠ tm.id),
            now := tm.time } : GState).phase = s.phase from rfl, hp] at hdead
          cases hdead
        | expiry orb =>
          exfalso
          rw [show step Ev.fire s = fireNext s from rfl, hstep, hcb] at hdead
          rw [execCb, expiryFire_phase] at hdead
          rw [show ({ s with
            pending := s.pending.filter (fun u => u.id ≠ tm.id),
            now := tm.time } : GState).phase = s.phase from rfl, hp] at hdead
          cases hdead
        | roundEnd r =>
          right
          refine ⟨tm, r, rfl, rfl, hcb, ?_⟩
          by_contra hge
          push_neg at hge
          rw [show step Ev.fire s = fireNext s from rfl, hstep, hcb] at hdead
          rw [execCb, roundEndFire] at hdead
          rw [if_neg (show ¬ (s.roundFriendHits < getMinimumHits r) by omega)]
            at hdead
          rw [showRuleThenStart_eq] at hdead
          cases hdead
    | click idx t =>
      rw [show step (.click idx t) s = clickOn idx t s from rfl] at hdead
      cases hfind : s.activeObjects.find? (fun o => o.index == idx) with
      | none =>
        exfalso
        rw [clickOn, if_neg (by simp [hfr]), if_neg (by simp [hp]), hfind]
          at hdead
        dsimp only at hdead
        rw [hp] at hdead
        cases hdead
      | some orb =>
        cases hfriend : orb.isFriend with
        | false => exact Or.inl ⟨idx, t, orb, rfl, hfind, hfriend⟩
        | true =>
          exfalso
          rw [clickOn_friend_phase s idx t orb hfr hp hfind hfriend, hp]
            at hdead
          cases hdead
    | start t =>
      exfalso
      rw [show step (.start t) s = startRun t s from rfl, startRun_eq t s hfr]
        at hdead
      cases hdead
  · -- backward direction
    intro hrhs
    rcases hrhs with ⟨idx, t, orb, rfl, hfind, hfriend⟩ |
      ⟨tm, r, rfl, hsel, hcb, hhits⟩
    · exact (clickOn_false_spec s idx t orb hG hfr hp hfind hfriend).1
    · rw [show step Ev.fire s = fireNext s from rfl,
        fireNext_eq s tm hfr hsel, hcb, execCb, roundEndFire]
      rw [if_pos (by exact hhits)]
      simp [triggerDeath, clearAllTimers]
  · -- effects of a false-friend click
    rintro idx t orb rfl hfind hfriend
    obtain ⟨hph, hact, htl, hem, hpend, hscore, hfrd⟩ :=
      clickOn_false_spec s idx t orb hG hfr hp hfind hfriend
    refine ⟨hact, hpend, htl, hem, ?_, ?_⟩
    · intro idx2 t2
      show clickOn idx2 t2 (clickOn idx t s) = clickOn idx t s
      rw [clickOn, if_neg (by simp [hfrd]), if_pos (by simp [hph])]
    · show fireNext (clickOn idx t s) = clickOn idx t s
      apply fireNext_frozen_or_none
      right
      rw [show selectNext (clickOn idx t s).pending =
        selectNext [] from by rw [hpend]]
      rfl
  · -- context of the soft fail: the queue is exhausted
    intro tm r he hsel hcb
    obtain ⟨h1, h2, h3, h4⟩ :=
      roundEnd_selected_exhausted s tm r hG hfr hp hsel hcb
    exact ⟨h1, h2, h4⟩

/-- Witness for C4: in a concrete `playing` state whose queue holds only
the round-end timer and with no friend hit, the characterisation applies
(firing the timer is the soft-fail case). -/
theorem playing_to_dead_iff_witness :
    ((step .fire stateC4).phase = .dead ↔
      (∃ idx t orb, Ev.fire = .click idx t ∧
        stateC4.activeObjects.find? (fun o => o.index == idx) = some orb ∧
        orb.isFriend = false) ∨
      (∃ tm r, Ev.fire = .fire ∧ selectNext stateC4.pending = some tm ∧
        tm.cb = .roundEnd r ∧ stateC4.roundFriendHits < getMinimumHits r)) ∧
    (∀ idx t orb, Ev.fire = .click idx t →
      stateC4.activeObjects.find? (fun o => o.index == idx) = some orb →
      orb.isFriend = false →
      (step .fire stateC4).activeObjects = [] ∧
      (step .fire stateC4).pending = [] ∧
      (step .fire stateC4).timersList = [] ∧
      (step .fire stateC4).expiryMap = [] ∧
      (∀ idx2 t2,
        step (.click idx2 t2) (step .fire stateC4) = step .fire stateC4) ∧
      step .fire (step .fire stateC4) = step .fire stateC4) ∧
    (∀ tm r, Ev.fire = .fire → selectNext stateC4.pending = some tm →
      tm.cb = .roundEnd r →
      stateC4.pending = [tm] ∧ stateC4.activeObjects = [] ∧
      r = stateC4.roundNumber) :=
  playing_to_dead_iff stateC4 .fire (by decide) rfl rfl

lemma getMinimumHits_mono (a b : ℕ) (h : a ≤ b) :
    getMinimumHits a ≤ getMinimumHits b := by
  unfold getMinimumHits
  split_ifs <;> omega

/-- C5: from `playing`, the only transition into the next rule card is the
round-end timer firing with the correct-hit count at or above the
(non-decreasing) minimum-hit threshold, at a moment when the round's queue
is exhausted (the round-end timer is the only pending timer and no orb is
on screen); the transition adds exactly the round-clear bonus
`⌊500 * round ^ 1.2⌋` to the score and increments the round number by one. -/
theorem playing_success_transition (s : GState) (e : Ev) (hG : GlobalInv s)
    (hfr : s.frozen = false) (hp : s.phase = .playing)
    (hstep : (step e s).phase = .ruleCard) :
    (∃ tm, e = .fire ∧ selectNext s.pending = some tm ∧
      tm.cb = .roundEnd s.roundNumber ∧ s.pending = [tm]) ∧
    s.activeObjects = [] ∧ s.expiryMap = [] ∧
    getMinimumHits s.roundNumber ≤ s.roundFriendHits ∧
    (step e s).score = s.score + roundClearBonusNat s.roundNumber ∧
    (step e s).roundNumber = s.roundNumber + 1 ∧
    (step e s).roundsCleared = s.roundNumber ∧
    roundClearBonusNat s.roundNumber =
      (⌊(500 : ℝ) * (s.roundNumber : ℝ) ^ (1.2 : ℝ)⌋).toNat ∧
    (∀ a b : ℕ, a ≤ b → getMinimumHits a ≤ getMinimumHits b) := by
  have hGp : PlayingInv s := by
    rcases hG.2 with hfz | hphase
    · rw [hfr] at hfz
      cases hfz
    · exact hphase.2.2.2.1 hp
  cases e with
  | start t =>
    exfalso
    rw [show step (.start t) s = startRun t s from rfl, startRun_eq t s hfr]
      at hstep
    cases hstep
  | click idx t =>
    exfalso
    rw [show step (.click idx t) s = clickOn idx t s from rfl] at hstep
    cases hfind : s.activeObjects.find? (fun o => o.index == idx) with
    | none =>
      rw [clickOn, if_neg (by simp [hfr]), if_neg (by simp [hp]), hfind]
        at hstep
      dsimp only at hstep
      rw [hp] at hstep
      cases hstep
    | some orb =>
      cases hfriend : orb.isFriend with
      | false =>
        have := (clickOn_false_spec s idx t orb hG hfr hp hfind hfriend).1
        rw [this] at hstep
        cases hstep
      | true =>
        rw [clickOn_friend_phase s idx t orb hfr hp hfind hfriend, hp] at hstep
        cases hstep
  | fire =>
    cases hsel : selectNext s.pending with
    | none =>
      exfalso
      have hid : step Ev.fire s = s := fireNext_frozen_or_none s (Or.inr hsel)
      rw [hid, hp] at hstep
      cases hstep
    | some tm =>
      have hfne := fireNext_eq s tm hfr hsel
      have htmmem := (selectNext_min s.pending tm hsel).1
      obtain ⟨hround, _⟩ := hGp
      cases hcb : tm.cb with
      | countdownTick k =>
        exfalso
        have hrc := hround tm htmmem
        simp [roundCb, hcb] at hrc
      | runStart =>
        exfalso
        have hrc := hround tm htmmem
        simp [roundCb, hcb] at hrc
      | ruleCardDone r =>
        exfalso
        have hrc := hround tm htmmem
        simp [roundCb, hcb] at hrc
      | spawn orb vis =>
        exfalso
        rw [show step Ev.fire s = fireNext s from rfl, hfne, hcb, execCb,
          spawnFire_phase] at hstep
        rw [show ({ s with
          pending := s.pending.filter (fun u => u.id ≠ tm.id),
          now := tm.time } : GState).phase = s.phase from rfl, hp] at hstep
        cases hstep
      | expiry orb =>
        exfalso
        rw [show step Ev.fire s = fireNext s from rfl, hfne, hcb, execCb,
          expiryFire_phase] at hstep
        rw [show ({ s with
          pending := s.pending.filter (fun u => u.id ≠ tm.id),
          now := tm.time } : GState).phase = s.phase from rfl, hp] at hstep
        cases hstep
      | roundEnd r =>
        obtain ⟨hpend, hact, hmap, hr⟩ :=
          roundEnd_selected_exhausted s tm r hG hfr hp hsel hcb
        subst hr
        have hhits : getMinimumHits s.roundNumber ≤ s.roundFriendHits := by
          by_contra hlt2
          push_neg at hlt2
          rw [show step Ev.fire s = fireNext s from rfl, hfne, hcb, execCb,
            roundEndFire] at hstep
          rw [if_pos (by exact hlt2)] at hstep
          rw [show (triggerDeath { s with
            pending := s.pending.filter (fun u => u.id ≠ tm.id),
            now := tm.time }).phase = Phase.dead from rfl] at hstep
          cases hstep
        have hsucc : step Ev.fire s = showRuleThenStart (s.roundNumber + 1)
            { s with
              pending := s.pending.filter (fun u => u.id ≠ tm.id),
              now := tm.time,
              score := s.score + roundClearBonusNat s.roundNumber,
              roundsCleared := s.roundNumber } := by
          rw [show step Ev.fire s = fireNext s from rfl, hfne, hcb, execCb,
            roundEndFire]
          rw [if_neg (show ¬ (s.roundFriendHits < getMinimumHits s.roundNumber)
            by omega)]
        refine ⟨⟨tm, rfl, rfl, hcb, hpend⟩, hact, hmap, hhits, ?_, ?_, ?_,
          rfl, getMinimumHits_mono⟩
        · rw [hsucc, showRuleThenStart_eq]
        · rw [hsucc, showRuleThenStart_eq]
        · rw [hsucc, showRuleThenStart_eq]

/-- Witness for C5: a concrete `playing` state meeting the hit requirement
whose only pending timer is the round-end timer. -/
theorem playing_success_transition_witness :
    (∃ tm, Ev.fire = .fire ∧ selectNext stateC5.pending = some tm ∧
      tm.cb = .roundEnd stateC5.roundNumber ∧ stateC5.pending = [tm]) ∧
    stateC5.activeObjects = [] ∧ stateC5.expiryMap = [] ∧
    getMinimumHits stateC5.roundNumber ≤ stateC5.roundFriendHits ∧
    (step .fire stateC5).score =
      stateC5.score + roundClearBonusNat stateC5.roundNumber ∧
    (step .fire stateC5).roundNumber = stateC5.roundNumber + 1 ∧
    (step .fire stateC5).roundsCleared = stateC5.roundNumber ∧
    roundClearBonusNat stateC5.roundNumber =
      (⌊(500 : ℝ) * (stateC5.roundNumber : ℝ) ^ (1.2 : ℝ)⌋).toNat ∧
    (∀ a b : ℕ, a ≤ b → getMinimumHits a ≤ getMinimumHits b) :=
  playing_success_transition stateC5 .fire (by decide) rfl rfl rfl

/-! ### Round content counts (claim C6) -/

lemma randFloorMul_lt (g : Rng) (n : ℕ) (hg : Rng.Valid g) (hn : 0 < n) :
    (randFloorMul g n).1 < n := by
  obtain ⟨h0, h1⟩ := hg g.idx
  have hlt : g.vals g.idx * (n : ℚ) < (n : ℚ) := by
    have hq : (0 : ℚ) < (n : ℚ) := by exact_mod_cast hn
    nlinarith
  have hfl : ⌊g.vals g.idx * (n : ℚ)⌋ < (n : ℤ) :=
    Int.floor_lt.2 (by exact_mod_cast hlt)
  simp only [randFloorMul, Rng.next]
  omega

lemma fillFriendSlots_spec (fc oc : ℕ) (hoc : 0 < oc) :
    ∀ (fuel : ℕ) (slots : Finset ℕ) (g : Rng), Rng.Valid g →
      slots.card ≤ fc → (∀ k ∈ slots, k < oc) →
      ∀ sl g2, fillFriendSlots fc oc fuel slots g = some (sl, g2) →
        sl.card = fc ∧ ∀ k ∈ sl, k < oc := by
  intro fuel
  induction fuel with
  | zero =>
    intro slots g hg hcard hbound sl g2 hout
    rw [fillFriendSlots] at hout
    split at hout
    · cases hout
    · rename_i hge
      simp only [Option.some.injEq, Prod.mk.injEq] at hout
      obtain ⟨rfl, rfl⟩ := hout
      exact ⟨by omega, hbound⟩
  | succ f ih =>
    intro slots g hg hcard hbound sl g2 hout
    rw [fillFriendSlots] at hout
    split at hout
    · rename_i hlt2
      refine ih (insert (randFloorMul g oc).1 slots) (randFloorMul g oc).2
        hg ?_ ?_ sl g2 hout
      · have := Finset.card_insert_le (randFloorMul g oc).1 slots
        omega
      · intro k hk
        rcases Finset.mem_insert.1 hk with rfl | hk2
        · exact randFloorMul_lt g oc hg hoc
        · exact hbound k hk2
    · rename_i hge
      simp only [Option.some.injEq, Prod.mk.injEq] at hout
      obtain ⟨rfl, rfl⟩ := hout
      exact ⟨by omega, hbound⟩

lemma buildOrbs_spec (rule : Rule) (slots : Finset ℕ) (baseSize : ℚ) :
    ∀ (is : List ℕ) (g : Rng),
      (buildOrbs rule slots baseSize is g).1.length = is.length ∧
      ((buildOrbs rule slots baseSize is g).1.map Orb.index = is) ∧
      ((buildOrbs rule slots baseSize is g).1.filter
        (fun o => o.isFriend)).length =
        (is.filter (fun i => decide (i ∈ slots))).length ∧
      ∀ o ∈ (buildOrbs rule slots baseSize is g).1, o.isFriend = true →
        o.shape = rule.friend.shape ∧ o.hue = rule.friend.hue ∧
        o.dotCount = rule.friend.dotCount ∧
        o.notchAngle = rule.friend.notchAngle := by
  intro is
  induction is with
  | nil =>
    intro g
    simp [buildOrbs]
  | cons i rest ih =>
    intro g
    rw [buildOrbs]
    dsimp only
    by_cases hmem : i ∈ slots
    · simp only [hmem, decide_True]
      refine ⟨?_, ?_, ?_, ?_⟩
      · simp only [List.length_cons]
        exact congrArg (· + 1) (ih _).1
      · simp only [List.map_cons]
        rw [(ih _).2.1]
      · simp only [List.filter_cons, hmem, decide_True, if_true,
          List.length_cons]
        rw [(ih _).2.2.1]
      · intro o ho hof
        rcases List.mem_cons.1 ho with rfl | ho2
        · exact ⟨rfl, rfl, rfl, rfl⟩
        · exact (ih _).2.2.2 o ho2 hof
    · simp only [hmem, decide_False, Bool.false_eq_true, if_false]
      refine ⟨?_, ?_, ?_, ?_⟩
      · simp only [List.length_cons]
        exact congrArg (· + 1) (ih _).1
      · simp only [List.map_cons]
        rw [(ih _).2.1]
      · simp only [List.filter_cons, hmem, decide_False, Bool.false_eq_true,
          if_false]
        rw [(ih _).2.2.1]
      · intro o ho hof
        rcases List.mem_cons.1 ho with rfl | ho2
        · exact Bool.noConfusion hof
        · exact (ih _).2.2.2 o ho2 hof

lemma length_filter_range_mem (slots : Finset ℕ) (n : ℕ)
    (h : ∀ k ∈ slots, k < n) :
    ((List.range n).filter (fun i => decide (i ∈ slots))).length =
      slots.card := by
  have key : ∀ m : ℕ,
      ((List.range m).filter (fun i => decide (i ∈ slots))).length =
        (slots.filter (fun k => k < m)).card := by
    intro m
    induction m with
    | zero =>
      simp only [List.range_zero, List.filter_nil, List.length_nil]
      symm
      rw [Finset.card_eq_zero, Finset.filter_eq_empty_iff]
      intro k _
      omega
    | succ j ihj =>
      rw [List.range_succ, List.filter_append]
      simp only [List.length_append, ihj, List.filter_cons, List.filter_nil]
      by_cases hj : j ∈ slots
      · have hsplit : slots.filter (fun k => k < j + 1) =
            insert j (slots.filter (fun k => k < j)) := by
          ext k
          simp only [Finset.mem_filter, Finset.mem_insert]
          constructor
          · rintro ⟨hk, hlt2⟩
            rcases Nat.lt_succ_iff_lt_or_eq.1 hlt2 with hlt3 | rfl
            · exact Or.inr ⟨hk, hlt3⟩
            · exact Or.inl rfl
          · rintro (rfl | ⟨hk, hlt3⟩)
            · exact ⟨hj, by omega⟩
            · exact ⟨hk, by omega⟩
        rw [hsplit, Finset.card_insert_of_not_mem (by simp)]
        simp [hj]
      · have hsplit : slots.filter (fun k => k < j + 1) =
            slots.filter (fun k => k < j) := by
          ext k
          simp only [Finset.mem_filter]
          constructor
          · rintro ⟨hk, hlt2⟩
            rcases Nat.lt_succ_iff_lt_or_eq.1 hlt2 with hlt3 | rfl
            · exact ⟨hk, hlt3⟩
            · exact absurd hk hj
          · rintro ⟨hk, hlt3⟩
            exact ⟨hk, by omega⟩
        rw [hsplit]
        simp [hj]
  rw [key n]
  congr 1
  rw [Finset.filter_true_of_mem]
  intro k hk
  exact h k hk

lemma getLevelConfig_consts (n : ℕ) :
    (getLevelConfig n).objectCount = 20 ∧
    (getLevelConfig n).friendCount = 4 := by
  unfold getLevelConfig configE
  split_ifs <;> exact ⟨rfl, rfl⟩

/-- C6: whenever `buildRound` returns (the friend-slot sampling loop drew
enough distinct slots within the modelled bound), the round has exactly 20
tokens, exactly 4 of them are friends, and every friend token carries the
round's friend attribute vector exactly. -/
theorem buildRound_counts (n fuel : ℕ) (g : Rng) (hn : 1 ≤ n)
    (hg : Rng.Valid g) :
    ∀ rule orbs g2, buildRound n fuel g = some (rule, orbs, g2) →
      orbs.length = 20 ∧
      (orbs.filter (fun o => o.isFriend)).length = 4 ∧
      ∀ o ∈ orbs, o.isFriend = true →
        o.shape = rule.friend.shape ∧ o.hue = rule.friend.hue ∧
        o.dotCount = rule.friend.dotCount ∧
        o.notchAngle = rule.friend.notchAngle := by
  intro rule orbs g2 hout
  rw [buildRound] at hout
  cases hfill : fillFriendSlots (buildRule n).config.friendCount
      (buildRule n).config.objectCount fuel ∅ g with
  | none =>
    rw [hfill] at hout
    cases hout
  | some out =>
    obtain ⟨slots, g1⟩ := out
    rw [hfill] at hout
    dsimp only at hout
    simp only [Option.some.injEq, Prod.mk.injEq] at hout
    obtain ⟨hrule, horbs, hg2⟩ := hout
    have hoc : (buildRule n).config.objectCount = 20 :=
      (getLevelConfig_consts n).1
    have hfc : (buildRule n).config.friendCount = 4 :=
      (getLevelConfig_consts n).2
    rw [hoc, hfc] at hfill
    have hslots := fillFriendSlots_spec 4 20 (by norm_num) fuel ∅ g hg
      (by simp) (by simp) slots g1 hfill
    obtain ⟨hcard, hbound⟩ := hslots
    have hbo := buildOrbs_spec (buildRule n) slots
      (clampQ (88 - (n : ℚ) * 12 / 10) 52 90) (List.range
        (buildRule n).config.objectCount) g1
    obtain ⟨hlen, hidx, hflt, hfr⟩ := hbo
    subst horbs
    subst hrule
    refine ⟨by rw [hlen, hoc, List.length_range], ?_, hfr⟩
    rw [hflt, hoc, length_filter_range_mem slots 20 hbound, hcard]

/-- Witness for C6: 1 ≤ 1 and a valid stream with 20 distinct slot draws. -/
theorem buildRound_counts_witness :
    (1 ≤ 1 ∧ Rng.Valid gSlots) ∧
    (∀ rule orbs g2, buildRound 1 4 gSlots = some (rule, orbs, g2) →
      orbs.length = 20 ∧
      (orbs.filter (fun o => o.isFriend)).length = 4 ∧
      ∀ o ∈ orbs, o.isFriend = true →
        o.shape = rule.friend.shape ∧ o.hue = rule.friend.hue ∧
        o.dotCount = rule.friend.dotCount ∧
        o.notchAngle = rule.friend.notchAngle) := by
  have hval : Rng.Valid gSlots := by
    intro k
    simp only [gSlots]
    constructor
    · positivity
    · rw [div_lt_one (by norm_num)]
      have : k % 20 < 20 := Nat.mod_lt k (by norm_num)
      exact_mod_cast this
  exact ⟨⟨le_refl 1, hval⟩, buildRound_counts 1 4 gSlots (le_refl 1) hval⟩

/-! ### The phase invariant is established initially and preserved by every
event, so the `GlobalInv` hypotheses above describe exactly the reachable
states. -/

theorem globalInv_init (g : Rng) (fuel : ℕ) : GlobalInv (initState g fuel) := by
  refine ⟨⟨?_, ?_, ?_⟩, Or.inr ⟨?_, ?_, ?_, ?_, ?_⟩⟩ <;>
    simp [initState, IdleInv, CountdownInv, RuleCardInv, PlayingInv]

lemma mem_filter_ne_iff (l : List Timer) (tm : Timer) (hmem : tm ∈ l)
    (hnd : (l.map Timer.id).Nodup) (u : Timer) :
    u ∈ l.filter (fun u => u.id ≠ tm.id) ↔ u ∈ l ∧ u ≠ tm := by
  rw [List.mem_filter]
  constructor
  · rintro ⟨hu, hne⟩
    simp only [decide_eq_true_eq] at hne
    exact ⟨hu, fun h => hne (by rw [h])⟩
  · rintro ⟨hu, hne⟩
    refine ⟨hu, ?_⟩
    simp only [decide_eq_true_eq]
    intro hid
    exact hne (List.inj_on_of_nodup_map hnd hu hmem hid)

lemma perm_cons_filter_ne (l : List Timer) (tm : Timer) (hmem : tm ∈ l)
    (hnd : (l.map Timer.id).Nodup) :
    l.Perm (tm :: l.filter (fun u => u.id ≠ tm.id)) := by
  have heq : l.filter (fun u => decide (u.id = tm.id)) = [tm] := by
    apply pending_singleton
    · exact List.Nodup.sublist (List.Sublist.map Timer.id
        (List.filter_sublist l)) hnd
    · rw [List.mem_filter]
      refine ⟨hmem, ?_⟩
      simp
    · intro u hu
      rw [List.mem_filter] at hu
      obtain ⟨hu1, hu2⟩ := hu
      simp only [decide_eq_true_eq] at hu2
      exact List.inj_on_of_nodup_map hnd hu1 hmem hu2
  have hpermf :=
    (List.filter_append_perm (fun u => decide (u.id = tm.id)) l).symm
  rw [heq] at hpermf
  have hfeq : l.filter (fun u => !decide (u.id = tm.id)) =
      l.filter (fun u => decide (u.id ≠ tm.id)) := by
    apply List.filter_congr
    intro u _
    simp
  rw [hfeq] at hpermf
  simpa using hpermf

/-- With distinct keys, `eraseP` for a key removes exactly the unique entry
with that key. -/
lemma eraseP_unique_key (m : List (ℕ × ℕ)) (idx : ℕ)
    (hk : (m.map Prod.fst).Nodup) (p : ℕ × ℕ) (hp : p ∈ m)
    (hpk : p.1 = idx) (q : ℕ × ℕ) :
    q ∈ m.eraseP (fun q => q.1 == idx) ↔ q ∈ m ∧ q ≠ p := by
  have hppred : (fun q : ℕ × ℕ => q.1 == idx) p = true := by simp [hpk]
  obtain ⟨a, l1, l2, hnl1, hpa, hm, her⟩ :=
    @List.exists_of_eraseP _ (fun q => q.1 == idx) m p hp hppred
  have hnodup : m.Nodup := List.Nodup.of_map _ hk
  have hap : a = p := by
    have ham : a ∈ m := by rw [hm]; simp
    simp only [beq_iff_eq] at hpa
    exact List.inj_on_of_nodup_map hk ham hp (by rw [hpa, hpk])
  subst hap
  rw [her, hm]
  rw [hm] at hnodup
  have hpnot1 : a ∉ l1 := by
    intro hmem1
    rw [List.nodup_append] at hnodup
    exact hnodup.2.2 hmem1 (by simp)
  have hpnot2 : a ∉ l2 := by
    intro hmem2
    rw [List.nodup_append] at hnodup
    have := hnodup.2.1
    rw [List.nodup_cons] at this
    exact this.1 hmem2
  constructor
  · intro hq
    rcases List.mem_append.1 hq with h1 | h1
    · exact ⟨by simp [h1], fun h => hpnot1 (h ▸ h1)⟩
    · exact ⟨by simp [h1], fun h => hpnot2 (h ▸ h1)⟩
  · rintro ⟨hq, hne⟩
    rcases List.mem_append.1 hq with h1 | h1
    · exact List.mem_append.2 (Or.inl h1)
    · rcases List.mem_cons.1 h1 with rfl | h1
      · exact absurd rfl hne
      · exact List.mem_append.2 (Or.inr h1)

lemma foldTimers_mem {α : Type} (d : α → ℚ) (c : α → Callback) (now : ℚ) :
    ∀ (nid : ℕ) (l : List α) (tm : Timer), tm ∈ foldTimers d c now nid l ↔
      ∃ j, ∃ h : j < l.length,
        tm = ⟨nid + j, now + d (l.get ⟨j, h⟩), c (l.get ⟨j, h⟩)⟩ := by
  intro nid l
  induction l generalizing nid with
  | nil =>
    intro tm
    simp [foldTimers]
  | cons x rest ih =>
    intro tm
    simp only [foldTimers, List.mem_cons, ih (nid + 1)]
    constructor
    · rintro (rfl | ⟨j, hj, rfl⟩)
      · refine ⟨0, by simp, ?_⟩
        simp
      · refine ⟨j + 1, by simpa using hj, ?_⟩
        simp only [List.get_cons_succ, Timer.mk.injEq]
        exact ⟨by omega, trivial, trivial⟩
    · rintro ⟨j, hj, rfl⟩
      cases j with
      | zero =>
        left
        simp
      | succ j2 =>
        right
        refine ⟨j2, by simpa using hj, ?_⟩
        simp only [List.get_cons_succ, Timer.mk.injEq]
        exact ⟨by omega, trivial, trivial⟩

lemma foldTimers_map_id {α : Type} (d : α → ℚ) (c : α → Callback) (now : ℚ) :
    ∀ (nid : ℕ) (l : List α),
      (foldTimers d c now nid l).map Timer.id = List.range' nid l.length := by
  intro nid l
  induction l generalizing nid with
  | nil => simp [foldTimers]
  | cons x rest ih => simp [foldTimers, List.range'_succ, ih (nid + 1)]

lemma selectNext_singleton (tm : Timer) : selectNext [tm] = some tm := by
  simp [selectNext, List.find?]

/-- Unpack a positive `mapEntryOk` check: the entry points at a pending
expiry timer for the recorded slot index. -/
lemma mapEntryOk_elim (p : ℕ × ℕ) (pending : List Timer)
    (h : mapEntryOk p pending = true) :
    ∃ tm ∈ pending, ∃ orb, tm.cb = .expiry orb ∧ orb.index = p.1 ∧
      tm.id = p.2 := by
  rw [mapEntryOk, List.any_eq_true] at h
  obtain ⟨tm, htm, hmatch⟩ := h
  refine ⟨tm, htm, ?_⟩
  cases hcb : tm.cb with
  | expiry orb =>
    rw [hcb] at hmatch
    simp only [Bool.and_eq_true, decide_eq_true_eq] at hmatch
    exact ⟨orb, rfl, hmatch.1, hmatch.2⟩
  | countdownTick k => rw [hcb] at hmatch; simp at hmatch
  | runStart => rw [hcb] at hmatch; simp at hmatch
  | ruleCardDone r => rw [hcb] at hmatch; simp at hmatch
  | spawn orb vis => rw [hcb] at hmatch; simp at hmatch
  | roundEnd r => rw [hcb] at hmatch; simp at hmatch

/-- Build a positive `mapEntryOk` check from a pending expiry timer. -/
lemma mapEntryOk_intro (p : ℕ × ℕ) (pending : List Timer) (tm : Timer)
    (htm : tm ∈ pending) (orb : Orb) (hcb : tm.cb = .expiry orb)
    (h1 : orb.index = p.1) (h2 : tm.id = p.2) :
    mapEntryOk p pending = true := by
  rw [mapEntryOk, List.any_eq_true]
  refine ⟨tm, htm, ?_⟩
  rw [hcb]
  simp [h1, h2]

/-- In a well-kept map the recorded timer id determines the entry. -/
lemma mapEntry_snd_unique (m : List (ℕ × ℕ)) (pending : List Timer)
    (hok : ∀ p ∈ m, mapEntryOk p pending = true)
    (hnd : (pending.map Timer.id).Nodup)
    (hk : (m.map Prod.fst).Nodup)
    (p q : ℕ × ℕ) (hp : p ∈ m) (hq : q ∈ m) (hsnd : p.2 = q.2) : p = q := by
  obtain ⟨tp, htp, orbp, hcbp, hip, hidp⟩ := mapEntryOk_elim p pending (hok p hp)
  obtain ⟨tq, htq, orbq, hcbq, hiq, hidq⟩ := mapEntryOk_elim q pending (hok q hq)
  have htpq : tp = tq :=
    List.inj_on_of_nodup_map hnd htp htq (by rw [hidp, hidq, hsnd])
  have horb : orbp = orbq := by
    rw [htpq, hcbq] at hcbp
    injection hcbp with h
    exact h.symm
  have hfst : p.1 = q.1 := by rw [← hip, ← hiq, horb]
  exact List.inj_on_of_nodup_map hk hp hq hfst

/-- Membership in the id-based cancellation filter, spelled out. -/
lemma mem_filter_id (l : List Timer) (n : ℕ) (u : Timer) :
    u ∈ l.filter (fun v => v.id ≠ n) ↔ u ∈ l ∧ u.id ≠ n := by
  rw [List.mem_filter]
  simp

/-- Membership in the slot-index removal filter, spelled out. -/
lemma mem_filter_index (l : List Orb) (n : ℕ) (o : Orb) :
    o ∈ l.filter (fun v => v.index ≠ n) ↔ o ∈ l ∧ o.index ≠ n := by
  rw [List.mem_filter]
  simp

/-- `Map.set` with a fresh key appends the binding. -/
lemma mapSet_not_mem (m : List (ℕ × ℕ)) (k v : ℕ)
    (h : k ∉ m.map Prod.fst) : mapSet m k v = m ++ [(k, v)] := by
  rw [mapSet, if_neg]
  intro hany
  rw [List.any_eq_true] at hany
  obtain ⟨p, hp, hpk⟩ := hany
  simp only [beq_iff_eq] at hpk
  exact h (hpk ▸ List.mem_map_of_mem Prod.fst hp)

/-- `spawnFire` in closed form. -/
lemma spawnFire_eq (orb : Orb) (vis : ℕ) (s : GState) :
    spawnFire orb vis s =
      { s with
        activeObjects := s.activeObjects ++ [{ orb with spawnedAt := s.now }],
        pending := s.pending ++
          [⟨s.nextId, s.now + (vis : ℚ), .expiry { orb with spawnedAt := s.now }⟩],
        nextId := s.nextId + 1,
        expiryMap := mapSet s.expiryMap orb.index s.nextId } := rfl

/-- `expiryFire` in closed form. -/
lemma expiryFire_eq (orb : Orb) (s : GState) :
    expiryFire orb s =
      { s with
        activeObjects := s.activeObjects.filter (fun o => o.index ≠ orb.index),
        score := if orb.isFriend then s.score else s.score + FALSE_EXPIRE_POINTS,
        expiryMap := s.expiryMap.eraseP (fun p => p.1 == orb.index) } := by
  cases h : orb.isFriend <;> simp [expiryFire, h]

/-- `spawnIdxs` distributes over append. -/
lemma spawnIdxs_append (l1 l2 : List Timer) :
    spawnIdxs (l1 ++ l2) = spawnIdxs l1 ++ spawnIdxs l2 := by
  simp [spawnIdxs, List.filterMap_append]

lemma spawnIdxs_sublist {l1 l2 : List Timer} (h : l1.Sublist l2) :
    (spawnIdxs l1).Sublist (spawnIdxs l2) :=
  h.filterMap _

lemma spawnIdxs_perm {l1 l2 : List Timer} (h : l1.Perm l2) :
    (spawnIdxs l1).Perm (spawnIdxs l2) :=
  h.filterMap _

/-- The slot indices of the batch of spawn timers scheduled by
`ruleCardDoneFire`. -/
lemma spawnIdxs_foldTimers {α : Type} (d : α → ℚ) (f : α → Orb) (v : α → ℕ)
    (now : ℚ) : ∀ (nid : ℕ) (l : List α),
    spawnIdxs (foldTimers d (fun x => .spawn (f x) (v x)) now nid l) =
      l.map (fun x => (f x).index) := by
  intro nid l
  induction l generalizing nid with
  | nil => simp [foldTimers, spawnIdxs]
  | cons x rest ih =>
    have ih2 := ih (nid + 1)
    rw [spawnIdxs] at ih2 ⊢
    rw [foldTimers]
    show (f x).index :: List.filterMap (fun tm => spawnIndex tm.cb)
        (foldTimers d (fun y => Callback.spawn (f y) (v y)) now (nid + 1) rest) =
      List.map (fun y => (f y).index) (x :: rest)
    rw [ih2]
    rfl

/-- `PlayingInv` only depends on the queue, the round number, the expiry
map and the arena. -/
lemma playingInv_ext (s1 s2 : GState) (h1 : s1.pending = s2.pending)
    (h2 : s1.roundNumber = s2.roundNumber) (h3 : s1.expiryMap = s2.expiryMap)
    (h4 : s1.activeObjects = s2.activeObjects) :
    PlayingInv s1 ↔ PlayingInv s2 := by
  unfold PlayingInv
  rw [h1, h2, h3, h4]

/-- Cancelling the expiry timer recorded under key `idx` (the timer with
id `tid` leaves the queue, the entry leaves the map) preserves the
timer-bookkeeping discipline. -/
lemma sysInv_cancel_core (s : GState) (idx tid : ℕ)
    (hsys : SysInv s)
    (hknodup : (s.expiryMap.map Prod.fst).Nodup)
    (hpm : ((idx, tid) : ℕ × ℕ) ∈ s.expiryMap) :
    ∀ s2 : GState,
      s2.pending = s.pending.filter (fun u => u.id ≠ tid) →
      s2.timersList = s.timersList →
      s2.expiryMap = s.expiryMap.eraseP (fun q => q.1 == idx) →
      s2.nextId = s.nextId →
      SysInv s2 := by
  obtain ⟨href, hlt, hnd⟩ := hsys
  intro s2 hpend htl hmap hnid
  refine ⟨?_, ?_, ?_⟩
  · intro u hu
    rw [hpend, mem_filter_id] at hu
    obtain ⟨humem, hune⟩ := hu
    rw [htl, hmap]
    rcases href u humem with h1 | h1
    · exact Or.inl h1
    · right
      rw [List.mem_map] at h1
      obtain ⟨q, hq, hqsnd⟩ := h1
      rw [List.mem_map]
      refine ⟨q, ?_, hqsnd⟩
      rw [eraseP_unique_key s.expiryMap idx hknodup (idx, tid) hpm rfl q]
      refine ⟨hq, ?_⟩
      intro heq
      rw [heq] at hqsnd
      exact hune hqsnd.symm
  · intro u hu
    rw [hpend, mem_filter_id] at hu
    rw [hnid]
    exact hlt u hu.1
  · rw [hpend]
    exact List.Nodup.sublist
      (List.Sublist.map Timer.id (List.filter_sublist _)) hnd

/-- Cancelling the expiry timer recorded under key `idx` preserves the
in-round queue invariant. -/
lemma playingInv_cancel_core (s : GState) (idx tid : ℕ)
    (hnd : (s.pending.map Timer.id).Nodup)
    (hplay : PlayingInv s)
    (hpm : ((idx, tid) : ℕ × ℕ) ∈ s.expiryMap) :
    ∀ s2 : GState,
      s2.pending = s.pending.filter (fun u => u.id ≠ tid) →
      s2.roundNumber = s.roundNumber →
      s2.expiryMap = s.expiryMap.eraseP (fun q => q.1 == idx) →
      s2.activeObjects = s.activeObjects.filter (fun o => o.index ≠ idx) →
      PlayingInv s2 := by
  obtain ⟨hround, endTm, hendmem, hendcb, huniq, hspawn, hexp, hmapok, hact,
    hknodup, hsnodup, hdisj⟩ := hplay
  intro s2 hpend hrn hmap hobj
  obtain ⟨tp, htp, orbp, hcbp, hip, hidp⟩ :=
    mapEntryOk_elim (idx, tid) s.pending (hmapok (idx, tid) hpm)
  have hmem_erase : ∀ q : ℕ × ℕ,
      q ∈ s.expiryMap.eraseP (fun q => q.1 == idx) ↔
        q ∈ s.expiryMap ∧ q ≠ (idx, tid) :=
    eraseP_unique_key s.expiryMap idx hknodup (idx, tid) hpm rfl
  refine ⟨?_, endTm, ?_, ?_, ?_, ?_, ?_, ?_, ?_, ?_, ?_, ?_⟩
  · intro u hu
    rw [hpend, mem_filter_id] at hu
    exact hround u hu.1
  · rw [hpend, mem_filter_id]
    refine ⟨hendmem, ?_⟩
    intro hide
    have hetp : endTm = tp :=
      List.inj_on_of_nodup_map hnd hendmem htp (by rw [hide, hidp])
    rw [hetp, hcbp] at hendcb
    cases hendcb
  · rw [hrn]
    exact hendcb
  · intro u hu
    rw [hpend, mem_filter_id] at hu
    exact huniq u hu.1
  · intro u hu
    rw [hpend, mem_filter_id] at hu
    exact hspawn u hu.1
  · intro u hu
    rw [hpend, mem_filter_id] at hu
    obtain ⟨humem, hune⟩ := hu
    have hold := hexp u humem
    rw [hmap]
    cases hcbu : u.cb with
    | expiry orbu =>
      simp only [expiryOk, hcbu, Bool.and_eq_true, decide_eq_true_eq]
        at hold ⊢
      refine ⟨hold.1, ?_⟩
      rw [hmem_erase]
      refine ⟨hold.2, ?_⟩
      intro heq
      have hutid : u.id = tid := by
        have := congrArg Prod.snd heq
        simpa using this
      exact hune hutid
    | countdownTick k => simp [expiryOk, hcbu]
    | runStart => simp [expiryOk, hcbu]
    | ruleCardDone r => simp [expiryOk, hcbu]
    | spawn orb vis => simp [expiryOk, hcbu]
    | roundEnd r => simp [expiryOk, hcbu]
  · intro q hq
    rw [hmap, hmem_erase] at hq
    obtain ⟨hqm, hqne⟩ := hq
    obtain ⟨w, hw, orbw, hcbw, hiw, hidw⟩ :=
      mapEntryOk_elim q s.pending (hmapok q hqm)
    refine mapEntryOk_intro q _ w ?_ orbw hcbw hiw hidw
    rw [hpend, mem_filter_id]
    refine ⟨hw, ?_⟩
    intro hwid
    have hq2 : q = (idx, tid) := by
      apply mapEntry_snd_unique s.expiryMap s.pending hmapok hnd hknodup q
        (idx, tid) hqm hpm
      rw [← hidw, hwid]
    exact hqne hq2
  · intro o ho
    rw [hobj, mem_filter_index] at ho
    obtain ⟨hom, hone⟩ := ho
    have hcov := hact o hom
    rw [List.mem_map] at hcov
    obtain ⟨q, hq, hqfst⟩ := hcov
    rw [hmap, List.mem_map]
    refine ⟨q, ?_, hqfst⟩
    rw [hmem_erase]
    refine ⟨hq, ?_⟩
    intro heq
    rw [heq] at hqfst
    exact hone hqfst.symm
  · rw [hmap]
    exact List.Nodup.sublist
      (List.Sublist.map Prod.fst (List.eraseP_sublist s.expiryMap)) hknodup
  · rw [hpend, hobj]
    refine List.Nodup.sublist ?_ hsnodup
    exact List.Sublist.append
      (spawnIdxs_sublist (List.filter_sublist _))
      (List.Sublist.map Orb.index (List.filter_sublist _))
  · intro k hk
    rw [hpend] at hk
    have hk2 : k ∈ spawnIdxs s.pending :=
      (spawnIdxs_sublist (List.filter_sublist _)).subset hk
    have hnotin := hdisj k hk2
    rw [hmap]
    intro hmem2
    apply hnotin
    rw [List.mem_map] at hmem2 ⊢
    obtain ⟨q, hq, hqf⟩ := hmem2
    rw [hmem_erase] at hq
    exact ⟨q, hq.1, hqf⟩

/-- `beginRun` re-establishes the global invariant from any state
satisfying it. -/
lemma globalInv_start (t : ℚ) (s : GState) (hG : GlobalInv s) :
    GlobalInv (startRun t s) := by
  obtain ⟨⟨href, hlt, hnd⟩, hrest⟩ := hG
  cases hfr : s.frozen with
  | true =>
    have hid : startRun t s = s := by rw [startRun, if_pos hfr]
    rw [hid]
    exact ⟨⟨href, hlt, hnd⟩, hrest⟩
  | false =>
    have hclr : (clearAllTimers s).pending = [] :=
      clearAllTimers_pending_nil s href
    rw [startRun_eq t s hfr, hclr, List.nil_append]
    refine ⟨⟨?_, ?_, ?_⟩, Or.inr ⟨?_, ?_, ?_, ?_, ?_⟩⟩
    · intro tm hmem
      simp only [List.mem_cons, List.mem_singleton, List.not_mem_nil,
        or_false] at hmem
      rcases hmem with rfl | rfl | rfl | rfl <;> simp
    · intro tm hmem
      simp only [List.mem_cons, List.mem_singleton, List.not_mem_nil,
        or_false] at hmem
      rcases hmem with rfl | rfl | rfl | rfl <;> simp
    · simp only [List.map_cons, List.map_nil, List.nodup_cons,
        List.mem_cons, List.mem_singleton, List.not_mem_nil]
      simp
    · intro hph
      simp at hph
    · intro hph
      refine ⟨⟨⟨s.nextId + 3, t + 3000, .runStart⟩, ?_, rfl, ?_, ?_⟩, rfl⟩
      · simp
      · intro tm hmem hcb
        simp only [List.mem_cons, List.mem_singleton, List.not_mem_nil,
          or_false] at hmem
        rcases hmem with rfl | rfl | rfl | rfl
        · simp at hcb
        · simp at hcb
        · simp at hcb
        · rfl
      · intro tm hmem hne
        simp only [List.mem_cons, List.mem_singleton, List.not_mem_nil,
          or_false] at hmem
        rcases hmem with rfl | rfl | rfl | rfl
        · exact ⟨rfl, by norm_num⟩
        · exact ⟨rfl, by norm_num⟩
        · exact ⟨rfl, by norm_num⟩
        · exact absurd rfl hne
    · intro hph
      simp at hph
    · intro hph
      simp at hph
    · intro hph
      simp at hph

/-- A pointer click preserves the global invariant. -/
lemma globalInv_click (idx : ℕ) (t : ℚ) (s : GState) (hG : GlobalInv s) :
    GlobalInv (clickOn idx t s) := by
  cases hfr : s.frozen with
  | true =>
    have hid : clickOn idx t s = s := by rw [clickOn, if_pos hfr]
    rw [hid]
    exact hG
  | false =>
    by_cases hp : s.phase = Phase.playing
    case neg =>
      have hid : clickOn idx t s = s := by
        rw [clickOn, if_neg (by simp [hfr]), if_pos hp]
      rw [hid]
      exact hG
    case pos =>
      obtain ⟨⟨href, hlt, hnd⟩, hrest⟩ := hG
      rcases hrest with hfz | hphase
      · rw [hfr] at hfz
        cases hfz
      have hplay := hphase.2.2.2.1 hp
      cases hfind : s.activeObjects.find? (fun o => o.index == idx) with
      | none =>
        have hid : clickOn idx t s = s := by
          rw [clickOn, if_neg (by simp [hfr]), if_neg (by simp [hp]), hfind]
        rw [hid]
        exact ⟨⟨href, hlt, hnd⟩, Or.inr hphase⟩
      | some orb =>
        have horbmem : orb ∈ s.activeObjects := List.mem_of_find?_eq_some hfind
        have horbidx : orb.index = idx := by
          have := List.find?_some hfind
          simpa using this
        obtain ⟨hround, endTm, hendmem, hendcb, huniq, hspawn, hexp, hmapok,
          hact, hknodup, hsnodup, hdisj⟩ := hplay
        have hidxm : idx ∈ s.expiryMap.map Prod.fst := by
          rw [← horbidx]
          exact hact orb horbmem
        cases hfm : s.expiryMap.find? (fun q => q.1 == idx) with
        | none =>
          exfalso
          rw [List.mem_map] at hidxm
          obtain ⟨q, hq, hqf⟩ := hidxm
          have hnone := List.find?_eq_none.1 hfm q hq
          simp [hqf] at hnone
        | some p =>
          have hpmem : p ∈ s.expiryMap := List.mem_of_find?_eq_some hfm
          have hpfst : p.1 = idx := by
            have := List.find?_some hfm
            simpa using this
          have hpm : ((idx, p.2) : ℕ × ℕ) ∈ s.expiryMap := by
            rw [← hpfst]
            exact hpmem
          cases hfriend : orb.isFriend with
          | false =>
            have hspec := clickOn_false_spec s idx t orb
              ⟨⟨href, hlt, hnd⟩, Or.inr hphase⟩ hfr hp hfind hfriend
            obtain ⟨hph2, hact2, htl2, hem2, hpend2, _, hfz2⟩ := hspec
            refine ⟨⟨?_, ?_, ?_⟩, Or.inr ⟨?_, ?_, ?_, ?_, ?_⟩⟩
            · intro tm hmem
              rw [hpend2] at hmem
              simp at hmem
            · intro tm hmem
              rw [hpend2] at hmem
              simp at hmem
            · rw [hpend2]
              simp
            · intro h0
              rw [hph2] at h0
              simp at h0
            · intro h0
              rw [hph2] at h0
              simp at h0
            · intro h0
              rw [hph2] at h0
              simp at h0
            · intro h0
              rw [hph2] at h0
              simp at h0
            · intro _
              exact ⟨hpend2, hem2, htl2⟩
          | true =>
            have hres : clickOn idx t s = { s with
                pending := s.pending.filter (fun u => u.id ≠ p.2),
                expiryMap := s.expiryMap.eraseP (fun q => q.1 == idx),
                activeObjects :=
                  s.activeObjects.filter (fun o => o.index ≠ idx),
                score := s.score + (2000 - (⌊t - orb.spawnedAt⌋).toNat),
                friendsClicked := s.friendsClicked + 1,
                reactionTotal := s.reactionTotal + (⌊t - orb.spawnedAt⌋).toNat,
                roundFriendHits := s.roundFriendHits + 1 } := by
              rw [clickOn, if_neg (by simp [hfr]), if_neg (by simp [hp]),
                hfind]
              dsimp only
              rw [hfm, hfriend]
              rfl
            rw [hres]
            refine ⟨?_, Or.inr ⟨?_, ?_, ?_, ?_, ?_⟩⟩
            · exact sysInv_cancel_core s idx p.2 ⟨href, hlt, hnd⟩ hknodup hpm
                _ rfl rfl rfl rfl
            · intro h0
              simp [hp] at h0
            · intro h0
              simp [hp] at h0
            · intro h0
              simp [hp] at h0
            · intro _
              exact playingInv_cancel_core s idx p.2 hnd
                ⟨hround, endTm, hendmem, hendcb, huniq, hspawn, hexp, hmapok,
                  hact, hknodup, hsnodup, hdisj⟩ hpm _ rfl rfl rfl rfl
            · intro h0
              simp [hp] at h0

/-- Firing a spawn timer preserves the global invariant: the orb enters the
arena, its expiry timer is scheduled before the round-end deadline, and the
new map entry records it. -/
lemma globalInv_fire_spawn (s : GState) (tm : Timer) (orb : Orb) (vis : ℕ)
    (hG : GlobalInv s) (hfr : s.frozen = false) (hp : s.phase = Phase.playing)
    (hsel : selectNext s.pending = some tm) (hcb : tm.cb = .spawn orb vis) :
    GlobalInv (fireNext s) := by
  obtain ⟨⟨href, hlt, hnd⟩, hrest⟩ := hG
  rcases hrest with hfz | hphase
  · rw [hfr] at hfz
    cases hfz
  obtain ⟨hround, endTm, hendmem, hendcb, huniq, hspawn, hexp, hmapok, hact,
    hknodup, hsnodup, hdisj⟩ := hphase.2.2.2.1 hp
  obtain ⟨htmmem, hmin⟩ := selectNext_min s.pending tm hsel
  have hspidx : orb.index ∈ spawnIdxs s.pending := by
    rw [spawnIdxs, List.mem_filterMap]
    refine ⟨tm, htmmem, ?_⟩
    rw [hcb]
    rfl
  have hfresh : orb.index ∉ s.expiryMap.map Prod.fst := hdisj orb.index hspidx
  have hms : mapSet s.expiryMap orb.index s.nextId =
      s.expiryMap ++ [(orb.index, s.nextId)] := mapSet_not_mem _ _ _ hfresh
  have hex : ∀ s0, execCb (Callback.spawn orb vis) s0 = spawnFire orb vis s0 :=
    fun s0 => rfl
  rw [fireNext_eq s tm hfr hsel, hcb, hex]
  have hres : spawnFire orb vis
      { s with pending := s.pending.filter (fun u => u.id ≠ tm.id),
               now := tm.time } =
    { s with
      activeObjects := s.activeObjects ++ [{ orb with spawnedAt := tm.time }],
      pending := s.pending.filter (fun u => u.id ≠ tm.id) ++
        [⟨s.nextId, tm.time + (vis : ℚ),
          .expiry { orb with spawnedAt := tm.time }⟩],
      nextId := s.nextId + 1,
      now := tm.time,
      expiryMap := mapSet s.expiryMap orb.index s.nextId } := rfl
  rw [hres, hms]
  have hendne : endTm.id ≠ tm.id := by
    intro h
    have hetm : endTm = tm := List.inj_on_of_nodup_map hnd hendmem htmmem h
    rw [hetm, hcb] at hendcb
    cases hendcb
  have hspf : spawnIdxs (tm :: s.pending.filter (fun u => u.id ≠ tm.id)) =
      orb.index :: spawnIdxs (s.pending.filter (fun u => u.id ≠ tm.id)) := by
    rw [spawnIdxs, spawnIdxs, List.filterMap_cons, hcb]
    rfl
  have hsp : (spawnIdxs s.pending).Perm
      (orb.index :: spawnIdxs (s.pending.filter (fun u => u.id ≠ tm.id))) := by
    have hperm := spawnIdxs_perm (perm_cons_filter_ne s.pending tm htmmem hnd)
    rwa [hspf] at hperm
  have hnodupP : (spawnIdxs s.pending).Nodup := (List.nodup_append.1 hsnodup).1
  have hoinot : orb.index ∉
      spawnIdxs (s.pending.filter (fun u => u.id ≠ tm.id)) :=
    (List.nodup_cons.1 (hsp.nodup hnodupP)).1
  refine ⟨⟨?_, ?_, ?_⟩, Or.inr ⟨?_, ?_, ?_, ?_, ?_⟩⟩
  · intro u hu
    rcases List.mem_append.1 hu with hu1 | hu1
    · rw [mem_filter_id] at hu1
      rcases href u hu1.1 with h1 | h1
      · exact Or.inl h1
      · right
        rw [List.map_append]
        exact List.mem_append_left _ h1
    · simp only [List.mem_singleton] at hu1
      subst hu1
      right
      rw [List.map_append]
      refine List.mem_append_right _ ?_
      simp
  · intro u hu
    rcases List.mem_append.1 hu with hu1 | hu1
    · rw [mem_filter_id] at hu1
      have := hlt u hu1.1
      show u.id < s.nextId + 1
      omega
    · simp only [List.mem_singleton] at hu1
      subst hu1
      show s.nextId < s.nextId + 1
      omega
  · rw [List.map_append, List.nodup_append]
    refine ⟨List.Nodup.sublist
      (List.Sublist.map Timer.id (List.filter_sublist _)) hnd, by simp, ?_⟩
    intro a ha hb
    rw [List.mem_map] at ha
    obtain ⟨u, hu, hua⟩ := ha
    rw [mem_filter_id] at hu
    have := hlt u hu.1
    simp only [List.map_cons, List.map_nil, List.mem_singleton] at hb
    omega
  · intro h0
    simp [hp] at h0
  · intro h0
    simp [hp] at h0
  · intro h0
    simp [hp] at h0
  · intro _
    refine ⟨?_, endTm, ?_, ?_, ?_, ?_, ?_, ?_, ?_, ?_, ?_, ?_⟩
    · intro u hu
      rcases List.mem_append.1 hu with hu1 | hu1
      · rw [mem_filter_id] at hu1
        exact hround u hu1.1
      · simp only [List.mem_singleton] at hu1
        subst hu1
        rfl
    · refine List.mem_append_left _ ?_
      rw [mem_filter_id]
      exact ⟨hendmem, hendne⟩
    · exact hendcb
    · intro u hu hend
      rcases List.mem_append.1 hu with hu1 | hu1
      · rw [mem_filter_id] at hu1
        exact huniq u hu1.1 hend
      · simp only [List.mem_singleton] at hu1
        subst hu1
        simp [isEndCb] at hend
    · intro u hu
      rcases List.mem_append.1 hu with hu1 | hu1
      · rw [mem_filter_id] at hu1
        exact hspawn u hu1.1
      · simp only [List.mem_singleton] at hu1
        subst hu1
        rfl
    · intro u hu
      rcases List.mem_append.1 hu with hu1 | hu1
      · rw [mem_filter_id] at hu1
        have hold := hexp u hu1.1
        cases hcbu : u.cb with
        | expiry orbu =>
          simp only [expiryOk, hcbu, Bool.and_eq_true, decide_eq_true_eq]
            at hold ⊢
          exact ⟨hold.1, List.mem_append_left _ hold.2⟩
        | countdownTick k => simp [expiryOk, hcbu]
        | runStart => simp [expiryOk, hcbu]
        | ruleCardDone r => simp [expiryOk, hcbu]
        | spawn orb2 vis2 => simp [expiryOk, hcbu]
        | roundEnd r => simp [expiryOk, hcbu]
      · simp only [List.mem_singleton] at hu1
        subst hu1
        simp only [expiryOk, Bool.and_eq_true, decide_eq_true_eq]
        constructor
        · have hso := hspawn tm htmmem
          simp only [spawnOk, hcb, decide_eq_true_eq] at hso
          exact hso
        · refine List.mem_append_right _ ?_
          simp
    · intro q hq
      rcases List.mem_append.1 hq with hq1 | hq1
      · obtain ⟨w, hw, orbw, hcbw, hiw, hidw⟩ :=
          mapEntryOk_elim q _ (hmapok q hq1)
        have hwne : w.id ≠ tm.id := by
          intro h
          have hwtm : w = tm := List.inj_on_of_nodup_map hnd hw htmmem h
          rw [hwtm, hcb] at hcbw
          cases hcbw
        refine mapEntryOk_intro q _ w ?_ orbw hcbw hiw hidw
        refine List.mem_append_left _ ?_
        rw [mem_filter_id]
        exact ⟨hw, hwne⟩
      · simp only [List.mem_singleton] at hq1
        subst hq1
        refine mapEntryOk_intro _ _
          ⟨s.nextId, tm.time + (vis : ℚ),
            .expiry { orb with spawnedAt := tm.time }⟩
          (List.mem_append_right _ (by simp))
          { orb with spawnedAt := tm.time } rfl rfl rfl
    · intro o ho
      rcases List.mem_append.1 ho with ho1 | ho1
      · have hcov := hact o ho1
        rw [List.map_append]
        exact List.mem_append_left _ hcov
      · simp only [List.mem_singleton] at ho1
        subst ho1
        rw [List.map_append]
        refine List.mem_append_right _ ?_
        simp
    · rw [List.map_append, List.nodup_append]
      refine ⟨hknodup, by simp, ?_⟩
      intro a ha hb
      simp only [List.map_cons, List.map_nil, List.mem_singleton] at hb
      rw [hb] at ha
      exact hfresh ha
    · have h1 : spawnIdxs [(⟨s.nextId, tm.time + (vis : ℚ),
          .expiry { orb with spawnedAt := tm.time }⟩ : Timer)] = [] := rfl
      rw [spawnIdxs_append, h1, List.append_nil, List.map_append]
      have h2 : List.map Orb.index [{ orb with spawnedAt := tm.time }] =
          [orb.index] := rfl
      rw [h2, ← List.append_assoc]
      exact ((hsp.append_right (List.map Orb.index s.activeObjects)).trans
        (List.perm_append_singleton _ _).symm).nodup hsnodup
    · intro k hk
      have h1 : spawnIdxs [(⟨s.nextId, tm.time + (vis : ℚ),
          .expiry { orb with spawnedAt := tm.time }⟩ : Timer)] = [] := rfl
      rw [spawnIdxs_append, h1, List.append_nil] at hk
      have hkP : k ∈ spawnIdxs s.pending :=
        (spawnIdxs_sublist (List.filter_sublist _)).subset hk
      have h5 := hdisj k hkP
      rw [List.map_append, List.mem_append]
      rintro (h6 | h6)
      · exact h5 h6
      · simp only [List.map_cons, List.map_nil, List.mem_singleton] at h6
        rw [h6] at hk
        exact hoinot hk
  · intro h0
    simp [hp] at h0

/-- Firing an expiry timer preserves the global invariant: the orb leaves
the arena and its map entry is dropped. -/
lemma globalInv_fire_expiry (s : GState) (tm : Timer) (orb : Orb)
    (hG : GlobalInv s) (hfr : s.frozen = false) (hp : s.phase = Phase.playing)
    (hsel : selectNext s.pending = some tm) (hcb : tm.cb = .expiry orb) :
    GlobalInv (fireNext s) := by
  obtain ⟨⟨href, hlt, hnd⟩, hrest⟩ := hG
  rcases hrest with hfz | hphase
  · rw [hfr] at hfz
    cases hfz
  obtain ⟨hround, endTm, hendmem, hendcb, huniq, hspawn, hexp, hmapok, hactm,
    hknodup, hsnodup, hdisj⟩ := hphase.2.2.2.1 hp
  obtain ⟨htmmem, hmin⟩ := selectNext_min s.pending tm hsel
  have hentry : ((orb.index, tm.id) : ℕ × ℕ) ∈ s.expiryMap := by
    have he := hexp tm htmmem
    simp only [expiryOk, hcb, Bool.and_eq_true, decide_eq_true_eq] at he
    exact he.2
  have hex2 : ∀ s0, execCb (Callback.expiry orb) s0 = expiryFire orb s0 :=
    fun s0 => rfl
  rw [fireNext_eq s tm hfr hsel, hcb, hex2]
  have hres : expiryFire orb
      { s with pending := s.pending.filter (fun u => u.id ≠ tm.id),
               now := tm.time } =
    { s with
      pending := s.pending.filter (fun u => u.id ≠ tm.id),
      now := tm.time,
      activeObjects := s.activeObjects.filter (fun o => o.index ≠ orb.index),
      score := if orb.isFriend then s.score else s.score + FALSE_EXPIRE_POINTS,
      expiryMap := s.expiryMap.eraseP (fun p => p.1 == orb.index) } := by
    rw [expiryFire_eq]
  rw [hres]
  refine ⟨?_, Or.inr ⟨?_, ?_, ?_, ?_, ?_⟩⟩
  · exact sysInv_cancel_core s orb.index tm.id ⟨href, hlt, hnd⟩ hknodup hentry
      _ rfl rfl rfl rfl
  · intro h0
    simp [hp] at h0
  · intro h0
    simp [hp] at h0
  · intro h0
    simp [hp] at h0
  · intro _
    exact playingInv_cancel_core s orb.index tm.id hnd
      ⟨hround, endTm, hendmem, hendcb, huniq, hspawn, hexp, hmapok, hactm,
        hknodup, hsnodup, hdisj⟩ hentry _ rfl rfl rfl rfl
  · intro h0
    simp [hp] at h0

/-- Firing the round-end timer preserves the global invariant: either the
run dies (everything cancelled) or the next rule card goes up with exactly
its dismissal timer pending. -/
lemma globalInv_fire_roundEnd (s : GState) (tm : Timer) (r : ℕ)
    (hG : GlobalInv s) (hfr : s.frozen = false) (hp : s.phase = Phase.playing)
    (hsel : selectNext s.pending = some tm) (hcb : tm.cb = .roundEnd r) :
    GlobalInv (fireNext s) := by
  obtain ⟨hpend, hact, hmap, hr⟩ :=
    roundEnd_selected_exhausted s tm r hG hfr hp hsel hcb
  obtain ⟨⟨href, hlt, hnd⟩, hrest⟩ := hG
  rw [fireNext_eq s tm hfr hsel, hcb]
  have hex3 : ∀ s0, execCb (Callback.roundEnd r) s0 = roundEndFire r s0 :=
    fun s0 => rfl
  rw [hex3]
  have hfilter : s.pending.filter (fun u => u.id ≠ tm.id) = [] := by
    rw [hpend]
    simp
  rw [roundEndFire]
  split
  · -- death: below the minimum-hit requirement
    have hres : triggerDeath
        { s with pending := s.pending.filter (fun u => u.id ≠ tm.id),
                 now := tm.time } =
      { s with
        pending := (s.pending.filter (fun u => u.id ≠ tm.id)).filter
          (fun tm => !(s.timersList.contains tm.id
            || (s.expiryMap.map Prod.snd).contains tm.id)),
        now := tm.time, timersList := [], expiryMap := [],
        activeObjects := [], phase := Phase.dead,
        deathScore := s.score } := rfl
    rw [hres, hfilter, List.filter_nil]
    refine ⟨⟨?_, ?_, ?_⟩, Or.inr ⟨?_, ?_, ?_, ?_, ?_⟩⟩
    · intro u hu
      simp at hu
    · intro u hu
      simp at hu
    · simp
    · intro h0
      simp at h0
    · intro h0
      simp at h0
    · intro h0
      simp at h0
    · intro h0
      simp at h0
    · intro _
      exact ⟨rfl, rfl, rfl⟩
  · -- success: the next rule card goes up
    rw [showRuleThenStart_eq]
    dsimp only
    rw [hfilter, List.nil_append]
    refine ⟨⟨?_, ?_, ?_⟩, Or.inr ⟨?_, ?_, ?_, ?_, ?_⟩⟩
    · intro u hu
      simp only [List.mem_singleton] at hu
      subst hu
      simp
    · intro u hu
      simp only [List.mem_singleton] at hu
      subst hu
      simp
    · simp
    · intro h0
      simp at h0
    · intro h0
      simp at h0
    · intro _
      refine ⟨rfl, ?_, hmap⟩
      intro u hu
      simp only [List.mem_singleton] at hu
      subst hu
      rfl
    · intro h0
      simp at h0
    · intro h0
      simp at h0

/-- Firing a timer during the countdown preserves the global invariant: a
tick only updates the display, and the run-start timer (necessarily alone
in the queue, having the latest deadline) puts up the first rule card. -/
lemma globalInv_fire_countdown (s : GState) (tm : Timer)
    (hG : GlobalInv s) (hfr : s.frozen = false)
    (hp : s.phase = Phase.countdown)
    (hsel : selectNext s.pending = some tm) :
    GlobalInv (fireNext s) := by
  obtain ⟨⟨href, hlt, hnd⟩, hrest⟩ := hG
  rcases hrest with hfz | hphase
  · rw [hfr] at hfz
    cases hfz
  obtain ⟨⟨rs, hrsmem, hrscb, hrsuniq, hrsticks⟩, hem⟩ := hphase.2.1 hp
  obtain ⟨htmmem, hmin⟩ := selectNext_min s.pending tm hsel
  by_cases htmrs : tm = rs
  case pos =>
    subst htmrs
    have hall : ∀ u ∈ s.pending, u = tm := by
      intro u hu
      by_contra hne
      have h1 := (hrsticks u hu hne).2
      have h2 := hmin u hu
      linarith
    have hpend : s.pending = [tm] := pending_singleton hnd htmmem hall
    have hfilter : s.pending.filter (fun u => u.id ≠ tm.id) = [] := by
      rw [hpend]
      simp
    rw [fireNext_eq s tm hfr hsel, hrscb]
    have hex4 : ∀ s0, execCb Callback.runStart s0 = showRuleThenStart 1 s0 :=
      fun s0 => rfl
    rw [hex4, showRuleThenStart_eq]
    dsimp only
    rw [hfilter, List.nil_append]
    refine ⟨⟨?_, ?_, ?_⟩, Or.inr ⟨?_, ?_, ?_, ?_, ?_⟩⟩
    · intro u hu
      simp only [List.mem_singleton] at hu
      subst hu
      simp
    · intro u hu
      simp only [List.mem_singleton] at hu
      subst hu
      simp
    · simp
    · intro h0
      simp at h0
    · intro h0
      simp at h0
    · intro _
      refine ⟨rfl, ?_, hem⟩
      intro u hu
      simp only [List.mem_singleton] at hu
      subst hu
      rfl
    · intro h0
      simp at h0
    · intro h0
      simp at h0
  case neg =>
    obtain ⟨htick, htlt⟩ := hrsticks tm htmmem htmrs
    cases hcbt : tm.cb with
    | countdownTick k =>
      rw [fireNext_eq s tm hfr hsel, hcbt]
      have hex5 : ∀ s0, execCb (Callback.countdownTick k) s0 =
          { s0 with countdown := k } := fun s0 => rfl
      rw [hex5]
      refine ⟨⟨?_, ?_, ?_⟩, Or.inr ⟨?_, ?_, ?_, ?_, ?_⟩⟩
      · intro u hu
        rw [mem_filter_id] at hu
        exact href u hu.1
      · intro u hu
        rw [mem_filter_id] at hu
        exact hlt u hu.1
      · exact List.Nodup.sublist
          (List.Sublist.map Timer.id (List.filter_sublist _)) hnd
      · intro h0
        simp [hp] at h0
      · intro _
        refine ⟨⟨rs, ?_, hrscb, ?_, ?_⟩, hem⟩
        · rw [mem_filter_id]
          refine ⟨hrsmem, ?_⟩
          intro hid
          exact htmrs (List.inj_on_of_nodup_map hnd hrsmem htmmem hid).symm
        · intro u hu hcb2
          rw [mem_filter_id] at hu
          exact hrsuniq u hu.1 hcb2
        · intro u hu hne
          rw [mem_filter_id] at hu
          exact hrsticks u hu.1 hne
      · intro h0
        simp [hp] at h0
      · intro h0
        simp [hp] at h0
      · intro h0
        simp [hp] at h0
    | runStart =>
      rw [hcbt] at htick
      simp [isTickCb] at htick
    | ruleCardDone r =>
      rw [hcbt] at htick
      simp [isTickCb] at htick
    | spawn orb vis =>
      rw [hcbt] at htick
      simp [isTickCb] at htick
    | expiry orb =>
      rw [hcbt] at htick
      simp [isTickCb] at htick
    | roundEnd r =>
      rw [hcbt] at htick
      simp [isTickCb] at htick

/-- The tokens produced by a successful `buildRound` carry the slot indices
`0, …, objectCount - 1` in order. -/
lemma buildRound_shape (n fuel : ℕ) (g : Rng) (rule : Rule)
    (objects : List Orb) (g2 : Rng)
    (hout : buildRound n fuel g = some (rule, objects, g2)) :
    rule = buildRule n ∧
    objects.map Orb.index = List.range rule.config.objectCount := by
  rw [buildRound] at hout
  cases hfill : fillFriendSlots (buildRule n).config.friendCount
      (buildRule n).config.objectCount fuel ∅ g with
  | none =>
    rw [hfill] at hout
    cases hout
  | some out =>
    obtain ⟨slots, g1⟩ := out
    rw [hfill] at hout
    dsimp only at hout
    simp only [Option.some.injEq, Prod.mk.injEq] at hout
    obtain ⟨hrule, horbs, hg2⟩ := hout
    have hbo := buildOrbs_spec (buildRule n) slots
      (clampQ (88 - (n : ℚ) * 12 / 10) 52 90)
      (List.range (buildRule n).config.objectCount) g1
    refine ⟨hrule.symm, ?_⟩
    rw [← horbs, hbo.2.1, hrule]

/-- Specialisation of `spawnIdxs_foldTimers` to the spawn-timer batch of
`ruleCardDoneFire`. -/
lemma spawnIdxs_foldTimers_pairs (d : ℕ × Orb → ℚ) (vis : ℕ) (now : ℚ) :
    ∀ (nid : ℕ) (l : List (ℕ × Orb)),
    spawnIdxs (foldTimers d (fun p => Callback.spawn p.2 vis) now nid l) =
      l.map (fun p => p.2.index) := by
  intro nid l
  induction l generalizing nid with
  | nil => simp [foldTimers, spawnIdxs]
  | cons x rest ih =>
    have ih2 := ih (nid + 1)
    rw [spawnIdxs] at ih2 ⊢
    rw [foldTimers]
    show x.2.index :: List.filterMap (fun tm => spawnIndex tm.cb)
        (foldTimers d (fun p => Callback.spawn p.2 vis) now (nid + 1) rest) =
      List.map (fun p : ℕ × Orb => p.2.index) (x :: rest)
    rw [ih2]
    rfl

/-- Firing the rule-card dismissal timer preserves the global invariant:
either the friend-slot sampling loop never returns and the state freezes,
or the round is built and the queue holds one spawn timer per token
followed by the round-end timer. -/
lemma globalInv_fire_ruleCard (s : GState) (tm : Timer)
    (hG : GlobalInv s) (hfr : s.frozen = false)
    (hp : s.phase = Phase.ruleCard)
    (hsel : selectNext s.pending = some tm) :
    GlobalInv (fireNext s) := by
  obtain ⟨⟨href, hlt, hnd⟩, hrest⟩ := hG
  rcases hrest with hfz | hphase
  · rw [hfr] at hfz
    cases hfz
  obtain ⟨hlen, hcbs, hem⟩ := hphase.2.2.1 hp
  obtain ⟨htmmem, hmin⟩ := selectNext_min s.pending tm hsel
  have hcbt : tm.cb = .ruleCardDone s.roundNumber := hcbs tm htmmem
  have hpend1 : s.pending = [tm] := by
    cases hpc : s.pending with
    | nil =>
      rw [hpc] at htmmem
      cases htmmem
    | cons a l =>
      rw [hpc] at hlen
      simp only [List.length_cons] at hlen
      have hl : l = [] := List.length_eq_zero.1 (by omega)
      subst hl
      rw [hpc] at htmmem
      simp only [List.mem_singleton] at htmmem
      rw [htmmem]
  have hfilter : s.pending.filter (fun u => u.id ≠ tm.id) = [] := by
    rw [hpend1]
    simp
  rw [fireNext_eq s tm hfr hsel, hcbt]
  have hex6 : ∀ s0, execCb (Callback.ruleCardDone s.roundNumber) s0 =
      ruleCardDoneFire s.roundNumber s0 := fun s0 => rfl
  rw [hex6, ruleCardDoneFire_eq]
  dsimp only
  cases hbr : buildRound s.roundNumber s.fuel s.rng with
  | none =>
    dsimp only
    rw [hfilter]
    refine ⟨⟨?_, ?_, ?_⟩, Or.inl rfl⟩
    · intro u hu
      simp at hu
    · intro u hu
      simp at hu
    · simp
  | some out =>
    obtain ⟨rule, objects, g'⟩ := out
    dsimp only
    rw [hfilter, List.nil_append]
    obtain ⟨hruleEq, hidx⟩ :=
      buildRound_shape s.roundNumber s.fuel s.rng rule objects g' hbr
    have hlen2 : objects.length = rule.config.objectCount := by
      have hcl := congrArg List.length hidx
      simpa using hcl
    have henl : objects.enum.length = objects.length := List.enum_length
    have hids := foldTimers_map_id
      (fun p : ℕ × Orb => (p.1 : ℚ) * (rule.config.spawnDelayMs : ℚ))
      (fun p => Callback.spawn p.2 rule.config.objectVisibleMs) tm.time
      s.nextId objects.enum
    have hbounds := foldTimers_id_bounds
      (fun p : ℕ × Orb => (p.1 : ℚ) * (rule.config.spawnDelayMs : ℚ))
      (fun p => Callback.spawn p.2 rule.config.objectVisibleMs) tm.time
      s.nextId objects.enum
    have hmemF := foldTimers_mem
      (fun p : ℕ × Orb => (p.1 : ℚ) * (rule.config.spawnDelayMs : ℚ))
      (fun p => Callback.spawn p.2 rule.config.objectVisibleMs) tm.time
      s.nextId objects.enum
    refine ⟨⟨?_, ?_, ?_⟩, Or.inr ⟨?_, ?_, ?_, ?_, ?_⟩⟩
    · intro u hu
      rcases List.mem_append.1 hu with hu1 | hu1
      · left
        refine List.mem_append_left _ ?_
        exact List.mem_append_right _ (List.mem_map_of_mem Timer.id hu1)
      · simp only [List.mem_singleton] at hu1
        subst hu1
        left
        refine List.mem_append_right _ ?_
        simp
    · intro u hu
      rcases List.mem_append.1 hu with hu1 | hu1
      · have hb := hbounds u hu1
        rw [henl] at hb
        show u.id < s.nextId + objects.length + 1
        omega
      · simp only [List.mem_singleton] at hu1
        subst hu1
        show s.nextId + objects.length < s.nextId + objects.length + 1
        omega
    · rw [List.map_append, hids, henl]
      simp only [List.map_cons, List.map_nil]
      rw [List.nodup_append]
      refine ⟨List.nodup_range' s.nextId objects.length 1 (by omega), by simp, ?_⟩
      intro a ha hb
      rw [List.mem_range'_1] at ha
      simp only [List.mem_singleton] at hb
      omega
    · intro h0
      simp at h0
    · intro h0
      simp at h0
    · intro h0
      simp at h0
    · intro _
      refine ⟨?_, ⟨s.nextId + objects.length,
        tm.time + (((objects.length - 1 : ℕ) : ℚ) *
          (rule.config.spawnDelayMs : ℚ) +
          (rule.config.objectVisibleMs : ℚ) + 30),
        .roundEnd s.roundNumber⟩, ?_, ?_, ?_, ?_, ?_, ?_, ?_, ?_, ?_, ?_⟩
      · intro u hu
        rcases List.mem_append.1 hu with hu1 | hu1
        · obtain ⟨j, hj, rfl⟩ := (hmemF u).1 hu1
          rfl
        · simp only [List.mem_singleton] at hu1
          subst hu1
          rfl
      · refine List.mem_append_right _ ?_
        simp
      · rfl
      · intro u hu hend
        rcases List.mem_append.1 hu with hu1 | hu1
        · obtain ⟨j, hj, rfl⟩ := (hmemF u).1 hu1
          simp [isEndCb] at hend
        · simp only [List.mem_singleton] at hu1
          exact hu1
      · intro u hu
        rcases List.mem_append.1 hu with hu1 | hu1
        · obtain ⟨j, hj, rfl⟩ := (hmemF u).1 hu1
          have hj2 : j < objects.length := by
            rw [← henl]
            exact hj
          have hget : objects.enum.get ⟨j, hj⟩ = (j, objects[j]) := by
            rw [List.get_eq_getElem, List.getElem_enum]
          rw [hget]
          simp only [spawnOk, decide_eq_true_eq]
          have hle : ((j : ℚ)) ≤ ((objects.length - 1 : ℕ) : ℚ) := by
            have hj3 : j ≤ objects.length - 1 := by omega
            exact_mod_cast hj3
          have hd0 : (0 : ℚ) ≤ (rule.config.spawnDelayMs : ℚ) := by positivity
          have hmul := mul_le_mul_of_nonneg_right hle hd0
          linarith
        · simp only [List.mem_singleton] at hu1
          subst hu1
          rfl
      · intro u hu
        rcases List.mem_append.1 hu with hu1 | hu1
        · obtain ⟨j, hj, rfl⟩ := (hmemF u).1 hu1
          rfl
        · simp only [List.mem_singleton] at hu1
          subst hu1
          rfl
      · intro q hq
        rw [hem] at hq
        simp at hq
      · intro o ho
        simp at ho
      · rw [hem]
        simp
      · have hsp1 : spawnIdxs [(⟨s.nextId + objects.length,
            tm.time + (((objects.length - 1 : ℕ) : ℚ) *
              (rule.config.spawnDelayMs : ℚ) +
              (rule.config.objectVisibleMs : ℚ) + 30),
            .roundEnd s.roundNumber⟩ : Timer)] = [] := rfl
        rw [spawnIdxs_append, hsp1, List.append_nil, List.map_nil,
          List.append_nil]
        rw [spawnIdxs_foldTimers_pairs]
        have h8 : objects.enum.map (fun p : ℕ × Orb => p.2.index) =
            objects.map Orb.index := by
          have h9 : objects.enum.map (fun p : ℕ × Orb => p.2.index) =
              (objects.enum.map Prod.snd).map Orb.index := by
            rw [List.map_map]
            rfl
          rw [h9, List.enum_map_snd]
        rw [h8, hidx]
        exact List.nodup_range _
      · intro k hk
        rw [hem]
        simp
    · intro h0
      simp at h0

/-- Firing the next due timer preserves the global invariant, whatever
phase the machine is in. -/
lemma globalInv_fire (s : GState) (hG : GlobalInv s) :
    GlobalInv (fireNext s) := by
  cases hfr : s.frozen with
  | true =>
    rw [fireNext_frozen_or_none s (Or.inl hfr)]
    exact hG
  | false =>
    cases hsel : selectNext s.pending with
    | none =>
      rw [fireNext_frozen_or_none s (Or.inr hsel)]
      exact hG
    | some tm =>
      have htmmem := (selectNext_min s.pending tm hsel).1
      obtain ⟨hsys, hrest⟩ := hG
      rcases hrest with hfz | hphase
      · rw [hfr] at hfz
        cases hfz
      cases hph : s.phase with
      | start =>
        exfalso
        have hidle := hphase.1 hph
        rw [hidle.1] at htmmem
        cases htmmem
      | dead =>
        exfalso
        have hidle := hphase.2.2.2.2 hph
        rw [hidle.1] at htmmem
        cases htmmem
      | countdown =>
        exact globalInv_fire_countdown s tm ⟨hsys, Or.inr hphase⟩ hfr hph hsel
      | ruleCard =>
        exact globalInv_fire_ruleCard s tm ⟨hsys, Or.inr hphase⟩ hfr hph hsel
      | playing =>
        have hrcb := (hphase.2.2.2.1 hph).1 tm htmmem
        cases hcb : tm.cb with
        | countdownTick k =>
          rw [hcb] at hrcb
          simp [roundCb] at hrcb
        | runStart =>
          rw [hcb] at hrcb
          simp [roundCb] at hrcb
        | ruleCardDone r =>
          rw [hcb] at hrcb
          simp [roundCb] at hrcb
        | spawn orb vis =>
          exact globalInv_fire_spawn s tm orb vis ⟨hsys, Or.inr hphase⟩ hfr hph
            hsel hcb
        | expiry orb =>
          exact globalInv_fire_expiry s tm orb ⟨hsys, Or.inr hphase⟩ hfr hph
            hsel hcb
        | roundEnd r =>
          exact globalInv_fire_roundEnd s tm r ⟨hsys, Or.inr hphase⟩ hfr hph
            hsel hcb

/-- Every event — timer fire, click, or start-run request — preserves the
global invariant. -/
theorem globalInv_step (e : Ev) (s : GState) (hG : GlobalInv s) :
    GlobalInv (step e s) := by
  cases e with
  | fire => exact globalInv_fire s hG
  | click idx t => exact globalInv_click idx t s hG
  | start t => exact globalInv_start t s hG

/-- The global invariant holds in every reachable state: it is established
by the initial state and preserved by every event, so the `GlobalInv`
hypotheses of the transition theorems describe exactly the runs of the
component. -/
theorem globalInv_reachable (g : Rng) (fuel : ℕ) (evs : List Ev) :
    GlobalInv (applyEvents evs (initState g fuel)) := by
  have key : ∀ (l : List Ev) (s : GState), GlobalInv s →
      GlobalInv (applyEvents l s) := by
    intro l
    induction l with
    | nil =>
      intro s hs
      exact hs
    | cons e rest ih =>
      intro s hs
      exact ih (step e s) (globalInv_step e s hs)
  exact key evs _ (globalInv_init g fuel)

end FalseFriend
